import Mathlib

/-!
Verification of the Ibiza futures contract-date model.

Shallow embedding of `src/objects/contract_dates.py`, `src/objects/contracts.py`,
`src/objects/dict_future_contract_prices.py` and `src/core/date_utilities.py`.

Python strings are modelled as `List Char`; fallible constructors (Python code
that raises `ValueError`) return `Except String _`.  Machine-level details that
the claims do not touch (pandas dtypes, `datetime` internals) are modelled at
the level the source manipulates them: a `datetime.date` is its proleptic
Gregorian ordinal (an `Int`, with `weekday = (ordinal + 6) % 7`, Monday = 0),
and a price DataFrame is an association table of rows keyed by date ordinal.
-/

namespace Ibiza

/-- Python `str`, modelled as a list of characters. -/
abbrev Str := List Char

/-- The ten decimal digit characters, as Python `int()` accepts them. -/
def isDigitCh (c : Char) : Bool :=
  c == '0' || c == '1' || c == '2' || c == '3' || c == '4' ||
  c == '5' || c == '6' || c == '7' || c == '8' || c == '9'

/-- Numeric value of a digit character (0 for anything that is not a digit). -/
def charVal (c : Char) : Nat :=
  if c == '1' then 1 else if c == '2' then 2 else if c == '3' then 3 else
  if c == '4' then 4 else if c == '5' then 5 else if c == '6' then 6 else
  if c == '7' then 7 else if c == '8' then 8 else if c == '9' then 9 else 0

/-- The digit character for a value below ten. -/
def digitChar (n : Nat) : Char :=
  if n = 1 then '1' else if n = 2 then '2' else if n = 3 then '3' else
  if n = 4 then '4' else if n = 5 then '5' else if n = 6 then '6' else
  if n = 7 then '7' else if n = 8 then '8' else if n = 9 then '9' else '0'

/-- Value of a digit string, most significant character first. -/
def toNatValue (s : Str) : Nat :=
  s.foldl (fun a c => 10 * a + charVal c) 0

/-- Python `int(s)` for an unsigned decimal literal: `some` value when `s` is a
nonempty run of digits, `none` (a raised `ValueError`) otherwise. -/
def parseNatDigits (s : Str) : Option Nat :=
  if s.isEmpty then none
  else if s.all isDigitCh then some (toNatValue s) else none

/-- Python `int(s)`: an optional leading minus sign followed by digits. -/
def parseInt (s : Str) : Option Int :=
  match s with
  | [] => none
  | c :: rest =>
    if c = '-' then (parseNatDigits rest).map (fun v => -(v : Int))
    else (parseNatDigits (c :: rest)).map (fun v => (v : Int))

/-- Characters of a Lean string literal, for concrete test inputs. -/
def chars (s : String) : Str := s.data

instance {ε α : Type} [DecidableEq ε] [DecidableEq α] : DecidableEq (Except ε α) :=
  fun a b =>
  match a, b with
  | .ok x, .ok y =>
    if h : x = y then .isTrue (by rw [h])
    else .isFalse (fun hc => h (Except.ok.inj hc))
  | .error x, .error y =>
    if h : x = y then .isTrue (by rw [h])
    else .isFalse (fun hc => h (Except.error.inj hc))
  | .ok _, .error _ => .isFalse (fun hc => Except.noConfusion hc)
  | .error _, .ok _ => .isFalse (fun hc => Except.noConfusion hc)

/-- Decimal digits of `n`, most significant first, driven by fuel so that the
function is structural; `natDigits` always supplies enough fuel. -/
def natDigitsAux : Nat → Nat → Str
  | 0, _ => []
  | fuel + 1, n =>
    if n < 10 then [digitChar n]
    else natDigitsAux fuel (n / 10) ++ [digitChar (n % 10)]

/-- Decimal digits of `n`, most significant first; `natDigits 0 = ['0']`. -/
def natDigits (n : Nat) : Str := natDigitsAux (n + 1) n

/-- Left-pad a string with `'0'` up to width `w`. -/
def padZeros (w : Nat) (s : Str) : Str :=
  List.replicate (w - s.length) '0' ++ s

/-- Python `f"{n:0wd}"`: minimum width `w`, zero padded, the sign counted in
the width (`f"{-1:04d}" = "-001"`). -/
def pyFormat (w : Nat) (n : Int) : Str :=
  if n < 0 then '-' :: padZeros (w - 1) (natDigits n.natAbs)
  else padZeros w (natDigits n.toNat)

/-! ## SingleContractDate (`contract_dates.py`) -/

/-- `SingleContractDate`: the stored normalized string plus the expiry date
(modelled as a date ordinal) and offset, both carried verbatim and never
inspected by any operation the claims touch. -/
structure SingleContractDate where
  date_str : Str
  expiry_date : Option Int
  approx_expiry_offset : Int
deriving DecidableEq, Repr

/-- `SingleContractDate._normalize_date_str`: a 6-character string gets "00"
appended, an 8-character string is kept, anything else raises `ValueError`. -/
def normalize_date_str (s : Str) : Except String Str :=
  if s.length = 6 then .ok (s ++ ['0', '0'])
  else if s.length = 8 then .ok s
  else .error "Invalid date string format. Expected YYYYMM or YYYYMMDD"

/-- `SingleContractDate.__init__`. -/
def mkSingleContractDate (s : Str) (e : Option Int) (off : Int) :
    Except String SingleContractDate :=
  (normalize_date_str s).map (fun ns => ⟨ns, e, off⟩)

/-- Python `s.endswith("00")`. -/
def endsWith00 (s : Str) : Bool :=
  s.drop (s.length - 2) == ['0', '0']

/-- `SingleContractDate.is_monthly`: the stored string ends with "00". -/
def SingleContractDate.is_monthly (d : SingleContractDate) : Bool :=
  endsWith00 d.date_str

/-- `SingleContractDate.is_daily`. -/
def SingleContractDate.is_daily (d : SingleContractDate) : Bool :=
  !d.is_monthly

/-- `SingleContractDate.original_format`: strip the trailing "00" when present
(Python `self._date_str[:-2]`). -/
def SingleContractDate.original_format (d : SingleContractDate) : Str :=
  if endsWith00 d.date_str then d.date_str.take (d.date_str.length - 2)
  else d.date_str

/-- Lift Python `int(...)` to the raising context of a property access. -/
def exceptOfParse (o : Option Int) : Except String Int :=
  match o with
  | some v => .ok v
  | none => .error "invalid literal for int()"

/-- `SingleContractDate.year`: `int(self._date_str[:4])`. -/
def SingleContractDate.year (d : SingleContractDate) : Except String Int :=
  exceptOfParse (parseInt (d.date_str.take 4))

/-- `SingleContractDate.month`: `int(self._date_str[4:6])`. -/
def SingleContractDate.month (d : SingleContractDate) : Except String Int :=
  exceptOfParse (parseInt ((d.date_str.drop 4).take 2))

/-- `SingleContractDate.day`: `None` for monthly contracts, else
`int(self._date_str[6:8])`. -/
def SingleContractDate.day (d : SingleContractDate) : Except String (Option Int) :=
  if d.is_monthly then .ok none
  else (exceptOfParse (parseInt ((d.date_str.drop 6).take 2))).map some

/-- `QUARTERLY_MONTHS = [3, 6, 9, 12]`. -/
def QUARTERLY_MONTHS : List Int := [3, 6, 9, 12]

/-- The `while next_month not in QUARTERLY_MONTHS` loop of
`next_contract_month`, fuelled: every month value parsed from two characters
lies in [-9, 99], from which the loop reaches a quarterly month in fewer than
120 iterations, so the fuel used at the call site is never exhausted. -/
def nextQuarterLoop : Nat → Int → Int → Int × Int
  | 0, y, m => (y, m)
  | fuel + 1, y, m =>
    if m ∈ QUARTERLY_MONTHS then (y, m)
    else
      let m' := m + 1
      if m' > 12 then nextQuarterLoop fuel (y + 1) 1
      else nextQuarterLoop fuel y m'

/-- The `while prev_month not in QUARTERLY_MONTHS` loop of
`previous_contract_month`, fuelled like `nextQuarterLoop`. -/
def prevQuarterLoop : Nat → Int → Int → Int × Int
  | 0, y, m => (y, m)
  | fuel + 1, y, m =>
    if m ∈ QUARTERLY_MONTHS then (y, m)
    else
      let m' := m - 1
      if m' < 1 then prevQuarterLoop fuel (y - 1) 12
      else prevQuarterLoop fuel y m'

/-- `SingleContractDate.next_contract_month`: `next_month = month + 1` with a
December wrap into `next_year`, then the optional quarterly loop, then a new
`SingleContractDate` from `f"{next_year:04d}{next_month:02d}"`, carrying the
expiry date and offset verbatim. The mutated scalars `next_year`/`next_month`
appear here as the two branches of the wrap test and the components of the
loop's result pair. -/
def SingleContractDate.next_contract_month (d : SingleContractDate)
    (quarterly_only : Bool) : Except String SingleContractDate := do
  let y ← d.year
  let m ← d.month
  let ny : Int := if m + 1 > 12 then y + 1 else y
  let nm : Int := if m + 1 > 12 then 1 else m + 1
  let r : Int × Int := if quarterly_only then nextQuarterLoop 120 ny nm else (ny, nm)
  mkSingleContractDate (pyFormat 4 r.1 ++ pyFormat 2 r.2) d.expiry_date
    d.approx_expiry_offset

/-- `SingleContractDate.previous_contract_month`, mirror image of
`next_contract_month`. -/
def SingleContractDate.previous_contract_month (d : SingleContractDate)
    (quarterly_only : Bool) : Except String SingleContractDate := do
  let y ← d.year
  let m ← d.month
  let py : Int := if m - 1 < 1 then y - 1 else y
  let pm : Int := if m - 1 < 1 then 12 else m - 1
  let r : Int × Int := if quarterly_only then prevQuarterLoop 120 py pm else (py, pm)
  mkSingleContractDate (pyFormat 4 r.1 ++ pyFormat 2 r.2) d.expiry_date
    d.approx_expiry_offset

/-! ## ContractDate (`contract_dates.py`) -/

/-- An element of the list form of `ContractDate`'s constructor input;
`foreign` stands for any Python object of another type. -/
inductive ContractDateItem where
  | str (s : Str)
  | scd (d : SingleContractDate)
  | foreign (tag : Nat)
deriving DecidableEq, Repr

/-- The polymorphic input accepted by `ContractDate.__init__`. -/
inductive ContractDateInput where
  | str (s : Str)
  | scd (d : SingleContractDate)
  | list (items : List ContractDateItem)
  | foreign (tag : Nat)
deriving DecidableEq, Repr

/-- The list branch of `ContractDate._parse_input`. -/
def parseItemList (e : Option Int) (off : Int) :
    List ContractDateItem → Except String (List SingleContractDate)
  | [] => .ok []
  | .str s :: rest => do
    let d ← mkSingleContractDate s e off
    let ds ← parseItemList e off rest
    pure (d :: ds)
  | .scd d :: rest => (parseItemList e off rest).map (d :: ·)
  | .foreign _ :: _ => .error "Invalid contract date item in list"

/-- `ContractDate._parse_input`. -/
def parse_input (inp : ContractDateInput) (e : Option Int) (off : Int) :
    Except String (List SingleContractDate) :=
  match inp with
  | .str s => (mkSingleContractDate s e off).map (fun d => [d])
  | .scd d => .ok [d]
  | .list items => parseItemList e off items
  | .foreign _ => .error "Invalid contract date input type"

/-- `ContractDate`: the stored list plus constructor arguments. -/
structure ContractDate where
  contract_dates : List SingleContractDate
  expiry_date : Option Int
  approx_expiry_offset : Int
deriving DecidableEq, Repr

/-- `ContractDate.__init__`. -/
def mkContractDate (inp : ContractDateInput) (e : Option Int) (off : Int) :
    Except String ContractDate :=
  (parse_input inp e off).map (fun ds => ⟨ds, e, off⟩)

/-- `ContractDate.is_single_contract`: `len(self._contract_dates) == 1`. -/
def ContractDate.is_single_contract (cd : ContractDate) : Bool :=
  cd.contract_dates.length == 1

/-- `ContractDate.is_spread_contract`: `len(self._contract_dates) > 1`. -/
def ContractDate.is_spread_contract (cd : ContractDate) : Bool :=
  1 < cd.contract_dates.length

/-- `ContractDate.create_empty`: `cls("")`. -/
def ContractDate.create_empty : Except String ContractDate :=
  mkContractDate (.str []) none 0

/-- `ContractDate.is_empty`: one stored date whose original format is `""`. -/
def ContractDate.is_empty (cd : ContractDate) : Bool :=
  cd.contract_dates.length == 1 &&
    (match cd.contract_dates with
     | d :: _ => d.original_format == ([] : Str)
     | [] => false)

/-! ## Date utilities (`date_utilities.py`)

A `datetime.date` is modelled by its proleptic Gregorian ordinal
(`date.toordinal()`, an `Int`); ordinal 1 is Monday 0001-01-01, so Python's
`date.weekday()` (Monday = 0 … Sunday = 6) is `(ordinal + 6) % 7` and
`date + timedelta(days=k)` is `ordinal + k`. -/

/-- Python `date.weekday()`. -/
def pyWeekday (d : Int) : Int := (d + 6) % 7

/-- `is_business_day`: `date_obj.weekday() < 5`. -/
def is_business_day (d : Int) : Bool := pyWeekday d < 5

/-- The `while remaining_days > 0` loop of `add_business_days`, fuelled: each
loop iteration moves one calendar day, and at most three calendar days are
needed per business day traversed (a weekend is two consecutive days), so the
`3 * |days| + 1` fuel supplied by `add_business_days` is never exhausted. -/
def addBizLoop (dir : Int) : Nat → Int → Nat → Int
  | _, current, 0 => current
  | 0, current, _ + 1 => current
  | fuel + 1, current, remaining + 1 =>
    let next := current + dir
    if is_business_day next then addBizLoop dir fuel next remaining
    else addBizLoop dir fuel next (remaining + 1)

/-- `add_business_days(date_obj, days)`. -/
def add_business_days (date_obj : Int) (days : Int) : Int :=
  let direction : Int := if 0 ≤ days then 1 else -1
  addBizLoop direction (3 * days.natAbs + 1) date_obj days.natAbs

/-- The next business day strictly after `d` (stepping forward one calendar
day at a time, skipping Saturday and Sunday). -/
def nextBizDay (d : Int) : Int :=
  if is_business_day (d + 1) then d + 1
  else if is_business_day (d + 2) then d + 2
  else d + 3

/-- The previous business day strictly before `d`. -/
def prevBizDay (d : Int) : Int :=
  if is_business_day (d - 1) then d - 1
  else if is_business_day (d - 2) then d - 2
  else d - 3

/-! ## ListOfFutureContracts (`contracts.py`)

For the validation claim only the element's runtime type matters, so a
`FuturesContract` is abstracted to its key and every other Python object to a
`foreign` tag. -/

/-- Stand-in for a constructed `FuturesContract` object. -/
structure FuturesContractObj where
  key : Str
deriving DecidableEq, Repr

/-- An element handed to `ListOfFutureContracts`: either a `FuturesContract`
or any other Python object. -/
inductive PyListItem where
  | contract (c : FuturesContractObj)
  | foreign (tag : Nat)
deriving DecidableEq, Repr

/-- Python `isinstance(item, FuturesContract)`. -/
def PyListItem.isContract : PyListItem → Bool
  | .contract _ => true
  | .foreign _ => false

/-- `ListOfFutureContracts.validate`: raises `ValueError` on the first element
that is not a `FuturesContract`. -/
def validateContracts (items : List PyListItem) : Except String Unit :=
  if items.all PyListItem.isContract then .ok ()
  else .error "All items must be FuturesContract objects"

/-- `ListOfFutureContracts.__init__`: start empty, `extend` with the supplied
elements when not `None`, then `validate`. -/
def mkListOfFutureContracts (contracts : Option (List PyListItem)) :
    Except String (List PyListItem) :=
  match contracts with
  | none => (validateContracts []).map (fun _ => [])
  | some items => (validateContracts items).map (fun _ => items)

/-- `ListOfFutureContracts.extend` is not overridden: it is the inherited
`list.extend`, which appends without any validation. -/
def list_extend (l new : List PyListItem) : List PyListItem := l ++ new

/-! ## DictFutureContractPrices (`dict_future_contract_prices.py`)

A price DataFrame is a column list plus rows keyed by date ordinal, each row
an association list column-name → optional value (`none` = NaN/None). `dict`
keys are kept in insertion order, as Python does. -/

/-- A pandas DataFrame as this module uses it. -/
structure PriceDF where
  cols : List Str
  rows : List (Int × List (Str × Option Int))
deriving DecidableEq, Repr

/-- `'BID'`. -/
def BID : Str := ['B', 'I', 'D']

/-- `'ASK'`. -/
def ASK : Str := ['A', 'S', 'K']

/-- `'FINAL_PRICE'`. -/
def FINAL_PRICE : Str := ['F', 'I', 'N', 'A', 'L', '_', 'P', 'R', 'I', 'C', 'E']

/-- Value of one cell of a row (`none` when the column is absent or null). -/
def lookupCell (row : List (Str × Option Int)) (c : Str) : Option Int :=
  match row.find? (fun p => p.1 == c) with
  | some p => p.2
  | none => none

/-- `df[c]`: the column as a date-indexed series. -/
def PriceDF.colSeries (df : PriceDF) (c : Str) : List (Int × Option Int) :=
  df.rows.map (fun r => (r.1, lookupCell r.2 c))

/-- Value of a series at a date (`none` when the date is absent: after the
outer join such cells are NaN). -/
def seriesAt (series : List (Int × Option Int)) (t : Int) : Option Int :=
  match series.find? (fun p => p.1 == t) with
  | some p => p.2
  | none => none

/-- `df[col] = None`: append an all-null column. -/
def addNullColumn (df : PriceDF) (c : Str) : PriceDF :=
  { cols := df.cols ++ [c],
    rows := df.rows.map (fun r => (r.1, r.2 ++ [(c, none)])) }

/-- The column-filling prologue of `add_contract_prices`:
`for col in ['BID', 'ASK', 'FINAL_PRICE']: if col not in df.columns: df[col] = None`. -/
def ensureExpectedColumns (df : PriceDF) : PriceDF :=
  let df1 := if BID ∈ df.cols then df else addNullColumn df BID
  let df2 := if ASK ∈ df1.cols then df1 else addNullColumn df1 ASK
  if FINAL_PRICE ∈ df2.cols then df2 else addNullColumn df2 FINAL_PRICE

/-- `DictFutureContractPrices`: the underlying insertion-ordered dict plus the
dynamically attached `_all_contract_date_str_sorted` cache attribute. -/
structure DictFutureContractPrices where
  entries : List (Str × PriceDF)
  cache : Option (List Str)
deriving DecidableEq, Repr

/-- `list(self.keys())` (insertion order). -/
def DictFutureContractPrices.keys (d : DictFutureContractPrices) : List Str :=
  d.entries.map Prod.fst

/-- `self[k]`. -/
def DictFutureContractPrices.lookup (d : DictFutureContractPrices) (k : Str) :
    Option PriceDF :=
  (d.entries.find? (fun p => p.1 == k)).map Prod.snd

/-- Plain mapping assignment `self[k] = v`: the inherited `dict.__setitem__`,
which replaces or appends the entry and touches nothing else. -/
def dictSetItem (d : DictFutureContractPrices) (k : Str) (v : PriceDF) :
    DictFutureContractPrices :=
  if k ∈ d.keys then
    { d with entries := d.entries.map (fun p => if p.1 == k then (k, v) else p) }
  else
    { d with entries := d.entries ++ [(k, v)] }

/-- `sorted_contract_date_str`: return the cached attribute when present, else
compute `sorted(self.keys())`, cache it and return it. Python's `sorted` on
strings is lexicographic by code point, which is the `List Char` order used
here; the state after the call is returned alongside the result. -/
def sorted_contract_date_str (d : DictFutureContractPrices) :
    List Str × DictFutureContractPrices :=
  match d.cache with
  | some cached => (cached, d)
  | none =>
    let sortedKeys := List.insertionSort (· ≤ ·) d.keys
    (sortedKeys, { d with cache := some sortedKeys })

/-- `add_contract_prices`: fill missing expected columns, store (a copy of)
the frame under the key, then delete the cached sorted-key attribute. -/
def add_contract_prices (d : DictFutureContractPrices) (k : Str) (df : PriceDF) :
    DictFutureContractPrices :=
  let d1 := dictSetItem d k (ensureExpectedColumns df)
  { d1 with cache := none }

/-- The joint price matrix built by `joint_data`. -/
structure JointDF where
  cols : List Str
  index : List Int
  rows : List (Int × List (Option Int))
deriving DecidableEq, Repr

/-- The series-collection loop of `joint_data`: for every sorted key, look the
frame up (`self[k]`, a `KeyError` when a stale cached key is absent) and keep
its `price_type` column when that column exists. -/
def collectSeries (d : DictFutureContractPrices) (ptype : Str) :
    List Str → Except String (List (Str × List (Int × Option Int)))
  | [] => .ok []
  | k :: rest =>
    match d.lookup k with
    | none => .error "KeyError"
    | some df =>
      if ptype ∈ df.cols then
        (collectSeries d ptype rest).map (fun tail => (k, df.colSeries ptype) :: tail)
      else collectSeries d ptype rest

/-- The row index of the concatenated frame: the union of the series' dates,
sorted ascending (`pd.concat(axis=1)` outer join followed by `sort_index()`).
Each contract's frame is assumed to carry distinct dates, as pandas series
alignment requires. -/
def unionDates (series : List (Str × List (Int × Option Int))) : List Int :=
  List.insertionSort (· ≤ ·) ((series.map (fun s => s.2.map Prod.fst)).flatten.dedup)

/-- `joint_data(price_type)`. -/
def joint_data (d : DictFutureContractPrices) (ptype : Str) :
    Except String JointDF :=
  (collectSeries d ptype (sorted_contract_date_str d).1).map (fun series =>
    let dates := unionDates series
    { cols := series.map Prod.fst,
      index := dates,
      rows := dates.map (fun t => (t, series.map (fun s => seriesAt s.2 t))) })

/-- Value of the joint frame at a column and date. -/
def JointDF.cell (jd : JointDF) (k : Str) (t : Int) : Option Int :=
  match jd.rows.find? (fun r => r.1 == t) with
  | some r =>
    match (jd.cols.zip r.2).find? (fun p => p.1 == k) with
    | some p => p.2
    | none => none
  | none => none

/-- A well-formed cache state: the `_all_contract_date_str_sorted` attribute is
either absent or holds the sorted current keys. Every state reached through
`add_contract_prices` and `sorted_contract_date_str` alone satisfies this;
plain mapping assignment can break it. -/
def DictFutureContractPrices.cacheOk (d : DictFutureContractPrices) : Prop :=
  d.cache = none ∨ d.cache = some (List.insertionSort (· ≤ ·) d.keys)

/-- `matched_prices(contracts_to_match, price_type)`. -/
def matched_prices (d : DictFutureContractPrices)
    (contracts_to_match : Option (List Str)) (ptype : Str) :
    Except String JointDF :=
  let toMatch := match contracts_to_match with | none => d.keys | some l => l
  (joint_data d ptype).bind (fun jd =>
    let available := toMatch.filter (fun k => k ∈ jd.cols)
    if available.isEmpty then
      .error "No matching contracts found in price data"
    else
      let matchedRows :=
        jd.rows.filter (fun r => available.all (fun k => (jd.cell k r.1).isSome))
      if matchedRows.isEmpty then
        .error "No overlapping price data found for specified contracts"
      else
        .ok { cols := available,
              index := matchedRows.map Prod.fst,
              rows := matchedRows.map
                (fun r => (r.1, available.map (fun k => jd.cell k r.1))) })

/-! ## Digit-string lemmas -/

lemma charVal_lt_ten (c : Char) : charVal c < 10 := by
  unfold charVal; split_ifs <;> omega

lemma charVal_digitChar {k : Nat} (h : k < 10) : charVal (digitChar k) = k := by
  interval_cases k <;> rfl

lemma isDigitCh_digitChar (k : Nat) : isDigitCh (digitChar k) = true := by
  unfold digitChar; split_ifs <;> rfl

lemma digit_cases {c : Char} (h : isDigitCh c = true) :
    c = '0' ∨ c = '1' ∨ c = '2' ∨ c = '3' ∨ c = '4' ∨
    c = '5' ∨ c = '6' ∨ c = '7' ∨ c = '8' ∨ c = '9' := by
  simp [isDigitCh, Bool.or_eq_true, beq_iff_eq] at h
  tauto

lemma digitChar_charVal {c : Char} (h : isDigitCh c = true) :
    digitChar (charVal c) = c := by
  rcases digit_cases h with rfl | rfl | rfl | rfl | rfl | rfl | rfl | rfl | rfl | rfl <;> rfl

lemma charVal_eq_zero {c : Char} (h : isDigitCh c = true) :
    charVal c = 0 ↔ c = '0' := by
  rcases digit_cases h with rfl | rfl | rfl | rfl | rfl | rfl | rfl | rfl | rfl | rfl <;>
    simp [charVal]

lemma digit_ne_dash {c : Char} (h : isDigitCh c = true) : c ≠ '-' := by
  rcases digit_cases h with rfl | rfl | rfl | rfl | rfl | rfl | rfl | rfl | rfl | rfl <;>
    decide

lemma toNatValue_nil : toNatValue [] = 0 := rfl

lemma toNatValue_singleton (c : Char) : toNatValue [c] = charVal c := by
  simp [toNatValue]

lemma toNatValue_append (xs : Str) (c : Char) :
    toNatValue (xs ++ [c]) = 10 * toNatValue xs + charVal c := by
  simp [toNatValue, List.foldl_append]

lemma toNatValue_lt (s : Str) : toNatValue s < 10 ^ s.length := by
  induction s using List.reverseRecOn with
  | nil => simp [toNatValue]
  | append_singleton xs c ih =>
    rw [toNatValue_append]
    have hc := charVal_lt_ten c
    have hp : (0:Nat) < 10 ^ xs.length := Nat.pos_pow_of_pos _ (by norm_num)
    rw [List.length_append, List.length_singleton, pow_succ]
    omega

lemma natDigitsAux_irrel (n : Nat) : ∀ f₁ f₂ : Nat, n < f₁ → n < f₂ →
    natDigitsAux f₁ n = natDigitsAux f₂ n := by
  induction n using Nat.strong_induction_on with
  | _ n ih =>
    intro f₁ f₂ h₁ h₂
    match f₁, f₂ with
    | g₁ + 1, g₂ + 1 =>
      show natDigitsAux (g₁ + 1) n = natDigitsAux (g₂ + 1) n
      unfold natDigitsAux
      by_cases h : n < 10
      · simp [h]
      · have hd : n / 10 < n := Nat.div_lt_self (by omega) (by norm_num)
        simp only [if_neg h]
        rw [ih (n / 10) hd g₁ g₂ (by omega) (by omega)]

lemma natDigits_eq (n : Nat) :
    natDigits n = if n < 10 then [digitChar n]
      else natDigits (n / 10) ++ [digitChar (n % 10)] := by
  show natDigitsAux (n + 1) n = _
  unfold natDigitsAux
  by_cases h : n < 10
  · simp [h]
  · have hd : n / 10 < n := Nat.div_lt_self (by omega) (by norm_num)
    simp only [if_neg h]
    rw [natDigitsAux_irrel (n / 10) n (n / 10 + 1) (by omega) (by omega)]
    rfl

lemma toNatValue_natDigits (n : Nat) : toNatValue (natDigits n) = n := by
  induction n using Nat.strong_induction_on with
  | _ n ih =>
    rw [natDigits_eq]
    by_cases h : n < 10
    · simp [h, toNatValue_singleton, charVal_digitChar]
    · have hd : n / 10 < n := Nat.div_lt_self (by omega) (by norm_num)
      rw [if_neg h, toNatValue_append, ih _ hd, charVal_digitChar (Nat.mod_lt _ (by norm_num))]
      omega

lemma natDigits_all_digits (n : Nat) : ∀ c ∈ natDigits n, isDigitCh c = true := by
  induction n using Nat.strong_induction_on with
  | _ n ih =>
    rw [natDigits_eq]
    by_cases h : n < 10
    · simp [h, isDigitCh_digitChar]
    · have hd : n / 10 < n := Nat.div_lt_self (by omega) (by norm_num)
      rw [if_neg h]
      intro c hc
      rcases List.mem_append.mp hc with hc | hc
      · exact ih _ hd c hc
      · rcases List.mem_singleton.mp hc with rfl
        exact isDigitCh_digitChar _

lemma natDigits_ne_nil (n : Nat) : natDigits n ≠ [] := by
  rw [natDigits_eq]
  by_cases h : n < 10 <;> simp [h]

lemma natDigits_length_le (n : Nat) : ∀ k : Nat, 1 ≤ k → n < 10 ^ k →
    (natDigits n).length ≤ k := by
  induction n using Nat.strong_induction_on with
  | _ n ih =>
    intro k hk hn
    rw [natDigits_eq]
    by_cases h : n < 10
    · simp [h]; omega
    · have hd : n / 10 < n := Nat.div_lt_self (by omega) (by norm_num)
      rw [if_neg h]
      match k, hk with
      | k' + 1, _ =>
        have hk' : 1 ≤ k' := by
          by_contra hcon
          interval_cases k'
          simp [pow_one] at hn; omega
        have hn' : n / 10 < 10 ^ k' :=
          (Nat.div_lt_iff_lt_mul (by norm_num)).mpr (by rw [← pow_succ]; exact hn)
        have := ih _ hd k' hk' hn'
        simp [List.length_append]
        omega

lemma toNatValue_cons_zero (t : Str) : toNatValue ('0' :: t) = toNatValue t := by
  simp [toNatValue, List.foldl_cons]
  rfl

lemma toNatValue_replicate_zero (k : Nat) (s : Str) :
    toNatValue (List.replicate k '0' ++ s) = toNatValue s := by
  induction k with
  | zero => simp
  | succ k ih => rw [List.replicate_succ, List.cons_append, toNatValue_cons_zero, ih]

lemma toNatValue_eq_zero_iff (s : Str) (h : ∀ c ∈ s, isDigitCh c = true) :
    toNatValue s = 0 ↔ s = List.replicate s.length '0' := by
  induction s using List.reverseRecOn with
  | nil => simp [toNatValue_nil]
  | append_singleton xs c ih =>
    have hxs : ∀ c' ∈ xs, isDigitCh c' = true := fun c' hc' => h c' (by simp [hc'])
    have hc : isDigitCh c = true := h c (by simp)
    rw [toNatValue_append]
    constructor
    · intro hz
      have hv : toNatValue xs = 0 := by omega
      have hcv : charVal c = 0 := by omega
      rw [(charVal_eq_zero hc).mp hcv]
      rw [(ih hxs).mp hv]
      simp [List.replicate_succ']
    · intro heq
      have hlen : (xs ++ [c]).length = xs.length + 1 := by simp
      rw [hlen, List.replicate_succ'] at heq
      have hx : xs = List.replicate xs.length '0' :=
        (List.append_inj' heq (by simp)).1
      have hcc : c = '0' := by
        have := (List.append_inj' heq (by simp)).2
        simpa using this
      have hv : toNatValue xs = 0 := (ih hxs).mpr hx
      rw [hcc, hv]
      decide

lemma fixed_width_round_trip (s : Str) (hne : s ≠ [])
    (h : ∀ c ∈ s, isDigitCh c = true) :
    padZeros s.length (natDigits (toNatValue s)) = s := by
  induction s using List.reverseRecOn with
  | nil => exact absurd rfl hne
  | append_singleton xs c ih =>
    have hxs : ∀ c' ∈ xs, isDigitCh c' = true := fun c' hc' => h c' (by simp [hc'])
    have hc : isDigitCh c = true := h c (by simp)
    rcases eq_or_ne xs [] with rfl | hxne
    · simp only [List.nil_append]
      have hlt : charVal c < 10 := charVal_lt_ten c
      rw [toNatValue_singleton, natDigits_eq, if_pos hlt, digitChar_charVal hc]
      simp [padZeros]
    · rw [toNatValue_append]
      rcases Nat.eq_zero_or_pos (toNatValue xs) with hv | hv
      · have hxz : xs = List.replicate xs.length '0' :=
          (toNatValue_eq_zero_iff xs hxs).mp hv
        have hlt : 10 * toNatValue xs + charVal c < 10 := by
          have := charVal_lt_ten c; omega
        rw [natDigits_eq, if_pos hlt, hv]
        have : (10 : Nat) * 0 + charVal c = charVal c := by omega
        rw [this, digitChar_charVal hc]
        simp only [padZeros, List.length_append, List.length_singleton,
          List.length_singleton]
        rw [hxz]
        simp [List.replicate_succ']
      · have hge : ¬ (10 * toNatValue xs + charVal c < 10) := by omega
        rw [natDigits_eq, if_neg hge]
        have hdiv : (10 * toNatValue xs + charVal c) / 10 = toNatValue xs := by
          have := charVal_lt_ten c; omega
        have hmod : (10 * toNatValue xs + charVal c) % 10 = charVal c := by
          have := charVal_lt_ten c; omega
        rw [hdiv, hmod, digitChar_charVal hc]
        have ihx := ih hxne hxs
        have hL : (natDigits (toNatValue xs)).length ≤ xs.length := by
          have := congrArg List.length ihx
          simp [padZeros] at this
          omega
        simp only [padZeros, List.length_append, List.length_singleton] at *
        have harith : xs.length + 1 - ((natDigits (toNatValue xs)).length + 1)
            = xs.length - (natDigits (toNatValue xs)).length := by omega
        rw [harith, ← List.append_assoc]
        rw [ihx]

lemma padZeros_length (w : Nat) (s : Str) :
    (padZeros w s).length = max w s.length := by
  simp [padZeros]
  omega

lemma pyFormat_ofNat (n : Nat) (w : Nat) :
    pyFormat w (n : Int) = padZeros w (natDigits n) := by
  unfold pyFormat
  rw [if_neg (by omega : ¬ ((n : Int) < 0))]
  simp

lemma pyFormat_length (n w : Nat) (hw : 1 ≤ w) (hn : n < 10 ^ w) :
    (pyFormat w (n : Int)).length = w := by
  rw [pyFormat_ofNat, padZeros_length]
  have := natDigits_length_le n w hw hn
  omega

lemma pyFormat_all_digits (n w : Nat) :
    ∀ c ∈ pyFormat w (n : Int), isDigitCh c = true := by
  rw [pyFormat_ofNat]
  intro c hcmem
  rcases List.mem_append.mp hcmem with hcmem | hcmem
  · rcases List.eq_of_mem_replicate hcmem with rfl
    rfl
  · exact natDigits_all_digits n c hcmem

lemma toNatValue_padZeros (w : Nat) (s : Str) :
    toNatValue (padZeros w s) = toNatValue s := by
  unfold padZeros
  exact toNatValue_replicate_zero _ _

lemma parseNatDigits_of_digits (s : Str) (hne : s ≠ [])
    (h : ∀ c ∈ s, isDigitCh c = true) :
    parseNatDigits s = some (toNatValue s) := by
  unfold parseNatDigits
  rw [if_neg (by simpa [List.isEmpty_iff] using hne)]
  rw [if_pos (by rw [List.all_eq_true]; exact h)]

lemma parseInt_of_digits (s : Str) (hne : s ≠ [])
    (h : ∀ c ∈ s, isDigitCh c = true) :
    parseInt s = some ((toNatValue s : Nat) : Int) := by
  match s, hne with
  | c :: rest, _ =>
    have hc : isDigitCh c = true := h c (by simp)
    simp only [parseInt]
    rw [if_neg (digit_ne_dash hc), parseNatDigits_of_digits _ (by simp) h]
    rfl

lemma parseInt_pyFormat (n w : Nat) :
    parseInt (pyFormat w (n : Int)) = some ((n : Nat) : Int) := by
  have hne : pyFormat w (n : Int) ≠ [] := by
    rw [pyFormat_ofNat]
    unfold padZeros
    intro hcon
    exact natDigits_ne_nil n (List.append_eq_nil.mp hcon).2
  rw [parseInt_of_digits _ hne (pyFormat_all_digits n w), pyFormat_ofNat,
    toNatValue_padZeros, toNatValue_natDigits]

lemma parseItemList_length (e : Option Int) (off : Int) :
    ∀ items ds, parseItemList e off items = .ok ds → ds.length = items.length := by
  intro items
  induction items with
  | nil => intro ds h; simp [parseItemList] at h; simp [← h]
  | cons item rest ih =>
    intro ds h
    cases item with
    | str s =>
      simp only [parseItemList, bind, Except.bind] at h
      cases hmk : mkSingleContractDate s e off with
      | error msg => rw [hmk] at h; exact absurd h (by simp)
      | ok d =>
        rw [hmk] at h
        cases hrest : parseItemList e off rest with
        | error msg => rw [hrest] at h; exact absurd h (by simp)
        | ok ds' =>
          rw [hrest] at h
          simp only [pure, Except.pure, Except.ok.injEq] at h
          rw [← h]
          simp [ih ds' hrest]
    | scd d =>
      simp only [parseItemList, Except.map] at h
      cases hrest : parseItemList e off rest with
      | error msg => rw [hrest] at h; exact absurd h (by simp)
      | ok ds' =>
        rw [hrest] at h
        simp only [Except.ok.injEq] at h
        rw [← h]
        simp [ih ds' hrest]
    | foreign tag => simp [parseItemList] at h

/-! ## Contract-month rolling lemmas -/

lemma toNatValue_pyFormat (n w : Nat) : toNatValue (pyFormat w (n : Int)) = n := by
  rw [pyFormat_ofNat, toNatValue_padZeros, toNatValue_natDigits]

lemma endsWith00_append (t : Str) : endsWith00 (t ++ ['0', '0']) = true := by
  unfold endsWith00
  have hlen : (t ++ ['0', '0']).length = t.length + 2 := by simp
  rw [hlen, show t.length + 2 - 2 = t.length from by omega,
    List.drop_append_of_le_length (le_refl _), List.drop_length]
  rfl

lemma mk_length_six (s : Str) (e : Option Int) (off : Int) (h : s.length = 6) :
    mkSingleContractDate s e off = .ok ⟨s ++ ['0', '0'], e, off⟩ := by
  unfold mkSingleContractDate normalize_date_str
  rw [if_pos h]
  rfl

lemma mk_length_eight (s : Str) (e : Option Int) (off : Int) (h : s.length = 8) :
    mkSingleContractDate s e off = .ok ⟨s, e, off⟩ := by
  unfold mkSingleContractDate normalize_date_str
  rw [if_neg (by omega), if_pos h]
  rfl

lemma date_str_length_eight (s : Str) (e : Option Int) (off : Int)
    (d : SingleContractDate) (h : mkSingleContractDate s e off = .ok d) :
    d.date_str.length = 8 := by
  unfold mkSingleContractDate normalize_date_str at h
  by_cases h6 : s.length = 6
  · rw [if_pos h6] at h
    simp only [Except.map, Except.ok.injEq] at h
    rw [← h]
    simp [h6]
  · by_cases h8 : s.length = 8
    · rw [if_neg h6, if_pos h8] at h
      simp only [Except.map, Except.ok.injEq] at h
      rw [← h]
      exact h8
    · rw [if_neg h6, if_neg h8] at h
      exact absurd h (by simp [Except.map])

lemma pyFormat_length_neg (n : Int) (w : Nat) (hw : 2 ≤ w) (hn : n < 0)
    (hab : n.natAbs < 10 ^ (w - 1)) : (pyFormat w n).length = w := by
  unfold pyFormat
  rw [if_pos hn]
  have hL := natDigits_length_le n.natAbs (w - 1) (by omega) hab
  simp only [List.length_cons, padZeros_length]
  omega

lemma pyFormat_length_int (n : Int) (w : Nat) (hw : 2 ≤ w)
    (hlow : -(10 ^ (w - 1) : Int) < n) (hhigh : n < 10 ^ w) :
    (pyFormat w n).length = w := by
  rcases le_or_lt 0 n with hn | hn
  · obtain ⟨k, rfl⟩ : ∃ k : Nat, n = (k : Int) := ⟨n.toNat, (Int.toNat_of_nonneg hn).symm⟩
    refine pyFormat_length k w (by omega) ?_
    have hcast : ((10 ^ w : Nat) : Int) = (10 : Int) ^ w := by push_cast; ring
    omega
  · refine pyFormat_length_neg n w hw hn ?_
    have hcast : ((10 ^ (w - 1) : Nat) : Int) = (10 : Int) ^ (w - 1) := by push_cast; ring
    omega

lemma year_month_eight (t : Str) (e : Option Int) (off : Int)
    (hlen : t.length = 8) (hdig : ∀ c ∈ t.take 6, isDigitCh c = true) :
    (⟨t, e, off⟩ : SingleContractDate).year =
      .ok ((toNatValue (t.take 4) : Nat) : Int) ∧
    (⟨t, e, off⟩ : SingleContractDate).month =
      .ok ((toNatValue ((t.drop 4).take 2) : Nat) : Int) := by
  constructor
  · unfold SingleContractDate.year
    have hsub : t.take 4 = (t.take 6).take 4 := by
      rw [List.take_take]
      norm_num
    have hd4 : ∀ c ∈ t.take 4, isDigitCh c = true := by
      intro c hc
      rw [hsub] at hc
      exact hdig c (List.mem_of_mem_take hc)
    have hl4 : (t.take 4).length = 4 := by
      rw [List.length_take]
      omega
    have hne : t.take 4 ≠ [] := by
      intro hcon
      rw [hcon] at hl4
      simp at hl4
    rw [parseInt_of_digits _ hne hd4]
    rfl
  · unfold SingleContractDate.month
    have hsub : (t.take 6).drop 4 = (t.drop 4).take 2 := by
      rw [List.drop_take]
    have hd2 : ∀ c ∈ (t.drop 4).take 2, isDigitCh c = true := by
      intro c hc
      rw [← hsub] at hc
      exact hdig c (List.mem_of_mem_drop hc)
    have hl2 : ((t.drop 4).take 2).length = 2 := by
      rw [List.length_take, List.length_drop]
      omega
    have hne : (t.drop 4).take 2 ≠ [] := by
      intro hcon
      rw [hcon] at hl2
      simp at hl2
    rw [parseInt_of_digits _ hne hd2]
    rfl

lemma nextQuarterLoop_mem (fuel : Nat) (y m : Int) (h : m ∈ QUARTERLY_MONTHS) :
    nextQuarterLoop fuel y m = (y, m) := by
  cases fuel <;> simp [nextQuarterLoop, h]

lemma prevQuarterLoop_mem (fuel : Nat) (y m : Int) (h : m ∈ QUARTERLY_MONTHS) :
    prevQuarterLoop fuel y m = (y, m) := by
  cases fuel <;> simp [prevQuarterLoop, h]

lemma nextQuarterLoop_spec : ∀ (fuel : Nat) (y m : Int), 1 ≤ m → m ≤ 12 →
    12 - m ≤ (fuel : Int) →
    ∃ q : Int, nextQuarterLoop fuel y m = (y, q) ∧ q ∈ QUARTERLY_MONTHS ∧
      1 ≤ q ∧ q ≤ 12 := by
  intro fuel
  induction fuel with
  | zero =>
    intro y m h1 h2 hf
    have hm : m = 12 := by
      simp only [Nat.cast_zero] at hf
      omega
    subst hm
    exact ⟨12, rfl, by decide, by norm_num, by norm_num⟩
  | succ f ih =>
    intro y m h1 h2 hf
    by_cases hq : m ∈ QUARTERLY_MONTHS
    · exact ⟨m, by simp [nextQuarterLoop, hq], hq, h1, h2⟩
    · have hm11 : m ≤ 11 := by
        have : m ≠ 12 := fun hcon => hq (by rw [hcon]; decide)
        omega
      have hstep : nextQuarterLoop (f + 1) y m = nextQuarterLoop f y (m + 1) := by
        simp only [nextQuarterLoop, hq, if_false]
        show (if m + 1 > 12 then nextQuarterLoop f (y + 1) 1
          else nextQuarterLoop f y (m + 1)) = _
        rw [if_neg (by omega)]
      rw [hstep]
      refine ih y (m + 1) (by omega) (by omega) ?_
      push_cast at hf ⊢
      omega

lemma prevQuarterLoop_spec : ∀ (fuel : Nat) (y m : Int), 1 ≤ m → m ≤ 12 →
    m + 1 ≤ (fuel : Int) →
    ∃ y' q : Int, prevQuarterLoop fuel y m = (y', q) ∧ q ∈ QUARTERLY_MONTHS ∧
      1 ≤ q ∧ q ≤ 12 ∧ (y' = y ∨ y' = y - 1) := by
  intro fuel
  induction fuel with
  | zero =>
    intro y m h1 h2 hf
    simp only [Nat.cast_zero] at hf
    omega
  | succ f ih =>
    intro y m h1 h2 hf
    by_cases hq : m ∈ QUARTERLY_MONTHS
    · exact ⟨y, m, by simp [prevQuarterLoop, hq], hq, h1, h2, Or.inl rfl⟩
    · have hstep : prevQuarterLoop (f + 1) y m =
          if m - 1 < 1 then prevQuarterLoop f (y - 1) 12
          else prevQuarterLoop f y (m - 1) := by
        simp only [prevQuarterLoop, hq, if_false]
      by_cases hone : m - 1 < 1
      · rw [hstep, if_pos hone, prevQuarterLoop_mem f (y - 1) 12 (by decide)]
        exact ⟨y - 1, 12, rfl, by decide, by norm_num, by norm_num, Or.inr rfl⟩
      · rw [hstep, if_neg hone]
        obtain ⟨y', q, heq, hqmem, hq1, hq2, hy'⟩ := ih y (m - 1) (by omega)
          (by omega) (by push_cast at hf ⊢; omega)
        exact ⟨y', q, heq, hqmem, hq1, hq2, hy'⟩

lemma canonical_lengths (y m : Int) (hy1 : -3 < y) (hy2 : y < 10000)
    (hm1 : 1 ≤ m) (hm2 : m ≤ 12) :
    (pyFormat 4 y).length = 4 ∧ (pyFormat 2 m).length = 2 := by
  constructor
  · refine pyFormat_length_int y 4 (by norm_num) ?_ ?_ <;> norm_num <;> omega
  · refine pyFormat_length_int m 2 (by norm_num) ?_ ?_ <;> norm_num <;> omega

lemma mk_canonical (y m : Int) (e : Option Int) (off : Int)
    (h4 : (pyFormat 4 y).length = 4) (h2 : (pyFormat 2 m).length = 2) :
    mkSingleContractDate (pyFormat 4 y ++ pyFormat 2 m) e off =
      .ok ⟨(pyFormat 4 y ++ pyFormat 2 m) ++ ['0', '0'], e, off⟩ ∧
    (⟨(pyFormat 4 y ++ pyFormat 2 m) ++ ['0', '0'], e, off⟩ :
      SingleContractDate).is_monthly = true ∧
    (⟨(pyFormat 4 y ++ pyFormat 2 m) ++ ['0', '0'], e, off⟩ :
      SingleContractDate).day = .ok none := by
  have hlen : (pyFormat 4 y ++ pyFormat 2 m).length = 6 := by
    simp [h4, h2]
  have hmon : (⟨(pyFormat 4 y ++ pyFormat 2 m) ++ ['0', '0'], e, off⟩ :
      SingleContractDate).is_monthly = true := by
    exact endsWith00_append _
  refine ⟨mk_length_six _ e off hlen, hmon, ?_⟩
  unfold SingleContractDate.day
  rw [if_pos hmon]

lemma mk_roll_result (y m : Int) (e : Option Int) (off : Int)
    (h1 : -3 < y) (h2 : y < 10000) (h3 : 1 ≤ m) (h4 : m ≤ 12) :
    ∃ d' : SingleContractDate,
      mkSingleContractDate (pyFormat 4 y ++ pyFormat 2 m) e off = .ok d' ∧
      d'.is_monthly = true ∧ d'.day = .ok none := by
  obtain ⟨l4, l2⟩ := canonical_lengths y m h1 h2 h3 h4
  obtain ⟨hmk, hmon, hday⟩ := mk_canonical y m e off l4 l2
  exact ⟨_, hmk, hmon, hday⟩

lemma roll_monthly (t : Str) (e : Option Int) (off : Int) (b : Bool)
    (hlen : t.length = 8) (hdig : ∀ c ∈ t.take 6, isDigitCh c = true)
    (hm1 : 1 ≤ toNatValue ((t.drop 4).take 2))
    (hm2 : toNatValue ((t.drop 4).take 2) ≤ 12)
    (hy : toNatValue (t.take 4) ≤ 9998) :
    (∃ d' : SingleContractDate,
      (⟨t, e, off⟩ : SingleContractDate).next_contract_month b = .ok d' ∧
      d'.is_monthly = true ∧ d'.day = .ok none) ∧
    (∃ d' : SingleContractDate,
      (⟨t, e, off⟩ : SingleContractDate).previous_contract_month b = .ok d' ∧
      d'.is_monthly = true ∧ d'.day = .ok none) := by
  obtain ⟨hyq, hmq⟩ := year_month_eight t e off hlen hdig
  constructor
  · unfold SingleContractDate.next_contract_month
    rw [hyq, hmq]
    simp only [bind, Except.bind]
    by_cases h12 : ((toNatValue ((t.drop 4).take 2) : Nat) : Int) + 1 > 12
    · rw [if_pos h12, if_pos h12]
      cases b with
      | false =>
        rw [if_neg (show ¬(false = true) by decide)]
        exact mk_roll_result _ _ e off (by omega) (by omega) (by norm_num)
          (by norm_num)
      | true =>
        rw [if_pos rfl]
        obtain ⟨q, heq, _, hq1, hq2⟩ := nextQuarterLoop_spec 120
          (((toNatValue (t.take 4) : Nat) : Int) + 1) 1 (by norm_num)
          (by norm_num) (by norm_num)
        rw [heq]
        exact mk_roll_result _ _ e off (by omega) (by omega) hq1 hq2
    · rw [if_neg h12, if_neg h12]
      cases b with
      | false =>
        rw [if_neg (show ¬(false = true) by decide)]
        exact mk_roll_result _ _ e off (by omega) (by omega) (by omega) (by omega)
      | true =>
        rw [if_pos rfl]
        obtain ⟨q, heq, _, hq1, hq2⟩ := nextQuarterLoop_spec 120
          ((toNatValue (t.take 4) : Nat) : Int)
          (((toNatValue ((t.drop 4).take 2) : Nat) : Int) + 1) (by omega)
          (by omega) (by omega)
        rw [heq]
        exact mk_roll_result _ _ e off (by omega) (by omega) hq1 hq2
  · unfold SingleContractDate.previous_contract_month
    rw [hyq, hmq]
    simp only [bind, Except.bind]
    by_cases h1 : ((toNatValue ((t.drop 4).take 2) : Nat) : Int) - 1 < 1
    · rw [if_pos h1, if_pos h1]
      cases b with
      | false =>
        rw [if_neg (show ¬(false = true) by decide)]
        exact mk_roll_result _ _ e off (by omega) (by omega) (by norm_num)
          (by norm_num)
      | true =>
        rw [if_pos rfl]
        obtain ⟨y', q, heq, _, hq1, hq2, hy'⟩ := prevQuarterLoop_spec 120
          (((toNatValue (t.take 4) : Nat) : Int) - 1) 12 (by norm_num)
          (by norm_num) (by norm_num)
        rw [heq]
        refine mk_roll_result _ _ e off ?_ ?_ hq1 hq2 <;> rcases hy' with h | h <;>
          omega
    · rw [if_neg h1, if_neg h1]
      cases b with
      | false =>
        rw [if_neg (show ¬(false = true) by decide)]
        exact mk_roll_result _ _ e off (by omega) (by omega) (by omega) (by omega)
      | true =>
        rw [if_pos rfl]
        obtain ⟨y', q, heq, _, hq1, hq2, hy'⟩ := prevQuarterLoop_spec 120
          ((toNatValue (t.take 4) : Nat) : Int)
          (((toNatValue ((t.drop 4).take 2) : Nat) : Int) - 1) (by omega)
          (by omega) (by push_cast; omega)
        rw [heq]
        refine mk_roll_result _ _ e off ?_ ?_ hq1 hq2 <;> rcases hy' with h | h <;>
          omega

lemma take_six_canonical (a b : Nat) (ha : a < 10000) (hb : b < 100) :
    ((pyFormat 4 (a : Int) ++ pyFormat 2 (b : Int)) ++ ['0', '0']).take 6 =
      pyFormat 4 (a : Int) ++ pyFormat 2 (b : Int) := by
  have hF4 : (pyFormat 4 (a : Int)).length = 4 :=
    pyFormat_length a 4 (by norm_num) (by norm_num; omega)
  have hF2 : (pyFormat 2 (b : Int)).length = 2 :=
    pyFormat_length b 2 (by norm_num) (by norm_num; omega)
  rw [List.take_append_of_le_length (by simp [hF4, hF2]),
    List.take_of_length_le (by simp [hF4, hF2])]

lemma slices_canonical (a b : Nat) (ha : a < 10000) (hb : b < 100) :
    ((pyFormat 4 (a : Int) ++ pyFormat 2 (b : Int)) ++ ['0', '0']).take 4 =
      pyFormat 4 (a : Int) ∧
    ((((pyFormat 4 (a : Int) ++ pyFormat 2 (b : Int)) ++ ['0', '0']).drop 4).take 2) =
      pyFormat 2 (b : Int) := by
  have hF4 : (pyFormat 4 (a : Int)).length = 4 :=
    pyFormat_length a 4 (by norm_num) (by norm_num; omega)
  have hF2 : (pyFormat 2 (b : Int)).length = 2 :=
    pyFormat_length b 2 (by norm_num) (by norm_num; omega)
  constructor
  · rw [List.append_assoc, List.take_append_of_le_length (by omega),
      List.take_of_length_le (by omega)]
  · rw [List.append_assoc, List.drop_append_of_le_length (by omega),
      List.drop_eq_nil_of_le (by omega), List.nil_append,
      List.take_append_of_le_length (by omega), List.take_of_length_le (by omega)]

lemma prev_false_canonical (a b : Nat) (e : Option Int) (off : Int)
    (ha : a < 10000) (hb : b < 100) :
    (⟨(pyFormat 4 (a : Int) ++ pyFormat 2 (b : Int)) ++ ['0', '0'], e, off⟩ :
      SingleContractDate).previous_contract_month false =
    mkSingleContractDate
      (pyFormat 4 (if (b : Int) - 1 < 1 then (a : Int) - 1 else (a : Int)) ++
       pyFormat 2 (if (b : Int) - 1 < 1 then (12 : Int) else (b : Int) - 1))
      e off := by
  have hF4 : (pyFormat 4 (a : Int)).length = 4 :=
    pyFormat_length a 4 (by norm_num) (by norm_num; omega)
  have hF2 : (pyFormat 2 (b : Int)).length = 2 :=
    pyFormat_length b 2 (by norm_num) (by norm_num; omega)
  have hlen8 : ((pyFormat 4 (a : Int) ++ pyFormat 2 (b : Int)) ++ ['0', '0']).length = 8 := by
    simp [hF4, hF2]
  have hdig : ∀ c ∈ ((pyFormat 4 (a : Int) ++ pyFormat 2 (b : Int)) ++ ['0', '0']).take 6,
      isDigitCh c = true := by
    rw [take_six_canonical a b ha hb]
    intro c hc
    rcases List.mem_append.mp hc with hc | hc
    · exact pyFormat_all_digits a 4 c hc
    · exact pyFormat_all_digits b 2 c hc
  obtain ⟨hyq, hmq⟩ := year_month_eight _ e off hlen8 hdig
  obtain ⟨ht4, ht2⟩ := slices_canonical a b ha hb
  rw [ht4, toNatValue_pyFormat] at hyq
  rw [ht2, toNatValue_pyFormat] at hmq
  unfold SingleContractDate.previous_contract_month
  rw [hyq, hmq]
  simp only [bind, Except.bind]
  rw [if_neg (show ¬(false = true) by decide)]

lemma next_prev_core (t : Str) (e : Option Int) (off : Int)
    (hlen : t.length = 8) (hdig : ∀ c ∈ t.take 6, isDigitCh c = true)
    (hm1 : 1 ≤ toNatValue ((t.drop 4).take 2))
    (hm2 : toNatValue ((t.drop 4).take 2) ≤ 12)
    (hy : toNatValue ((t.drop 4).take 2) = 12 → toNatValue (t.take 4) ≤ 9998) :
    ((⟨t, e, off⟩ : SingleContractDate).next_contract_month false).bind
      (fun d' => d'.previous_contract_month false) =
    .ok ⟨t.take 6 ++ ['0', '0'], e, off⟩ := by
  obtain ⟨hyq, hmq⟩ := year_month_eight t e off hlen hdig
  have hl4 : (t.take 4).length = 4 := by rw [List.length_take]; omega
  have hl2 : ((t.drop 4).take 2).length = 2 := by
    rw [List.length_take, List.length_drop]; omega
  have hyn_lt : toNatValue (t.take 4) < 10000 := by
    have := toNatValue_lt (t.take 4)
    rw [hl4] at this
    norm_num at this
    exact this
  have hF4 : pyFormat 4 ((toNatValue (t.take 4) : Nat) : Int) = t.take 4 := by
    rw [pyFormat_ofNat]
    have h := fixed_width_round_trip (t.take 4)
      (by intro hcon; rw [hcon] at hl4; simp at hl4)
      (fun c hc => hdig c (by
        rw [show t.take 4 = (t.take 6).take 4 from by rw [List.take_take]; norm_num] at hc
        exact List.mem_of_mem_take hc))
    rw [hl4] at h
    exact h
  have hF2 : pyFormat 2 ((toNatValue ((t.drop 4).take 2) : Nat) : Int) =
      (t.drop 4).take 2 := by
    rw [pyFormat_ofNat]
    have h := fixed_width_round_trip ((t.drop 4).take 2)
      (by intro hcon; rw [hcon] at hl2; simp at hl2)
      (fun c hc => hdig c (by
        rw [show (t.drop 4).take 2 = (t.take 6).drop 4 from by rw [List.drop_take]] at hc
        exact List.mem_of_mem_drop hc))
    rw [hl2] at h
    exact h
  have htake6 : t.take 4 ++ (t.drop 4).take 2 = t.take 6 := by
    rw [show (6 : Nat) = 4 + 2 from by norm_num, List.take_add]
  unfold SingleContractDate.next_contract_month
  rw [hyq, hmq]
  simp only [bind, Except.bind]
  by_cases h12 : ((toNatValue ((t.drop 4).take 2) : Nat) : Int) + 1 > 12
  · -- December: next month is January of the following year
    have hmn12 : toNatValue ((t.drop 4).take 2) = 12 := by omega
    have hyn : toNatValue (t.take 4) ≤ 9998 := hy hmn12
    rw [if_pos h12, if_pos h12, if_neg (show ¬(false = true) by decide)]
    dsimp only
    have hcast1 : ((toNatValue (t.take 4) : Nat) : Int) + 1 =
        ((toNatValue (t.take 4) + 1 : Nat) : Int) := by push_cast; ring
    have hcast2 : (1 : Int) = ((1 : Nat) : Int) := by norm_num
    rw [show pyFormat 4 (((toNatValue (t.take 4) : Nat) : Int) + 1) ++
        pyFormat 2 (1 : Int) =
        pyFormat 4 ((toNatValue (t.take 4) + 1 : Nat) : Int) ++
        pyFormat 2 ((1 : Nat) : Int) from by rw [← hcast1, ← hcast2]]
    have hlen4 : (pyFormat 4 ((toNatValue (t.take 4) + 1 : Nat) : Int)).length = 4 :=
      pyFormat_length _ 4 (by norm_num) (by norm_num; omega)
    have hlen2 : (pyFormat 2 ((1 : Nat) : Int)).length = 2 :=
      pyFormat_length 1 2 (by norm_num) (by norm_num)
    rw [(mk_canonical _ _ e off hlen4 hlen2).1]
    simp only [Except.bind]
    rw [prev_false_canonical (toNatValue (t.take 4) + 1) 1 e off (by omega)
      (by norm_num)]
    rw [if_pos (by norm_num), if_pos (by norm_num)]
    have harith : ((toNatValue (t.take 4) + 1 : Nat) : Int) - 1 =
        ((toNatValue (t.take 4) : Nat) : Int) := by push_cast; ring
    rw [harith]
    have h12cast : (12 : Int) = ((toNatValue ((t.drop 4).take 2) : Nat) : Int) := by
      rw [hmn12]; norm_num
    rw [h12cast, hF4, hF2, mk_length_six _ e off
      (by rw [List.length_append, hl4, hl2])]
    rw [htake6]
  · -- ordinary month: next is month + 1 of the same year
    rw [if_neg h12, if_neg h12, if_neg (show ¬(false = true) by decide)]
    dsimp only
    have hcast1 : ((toNatValue ((t.drop 4).take 2) : Nat) : Int) + 1 =
        ((toNatValue ((t.drop 4).take 2) + 1 : Nat) : Int) := by push_cast; ring
    rw [hcast1]
    have hlen4 : (pyFormat 4 ((toNatValue (t.take 4) : Nat) : Int)).length = 4 :=
      pyFormat_length _ 4 (by norm_num) (by norm_num; omega)
    have hlen2 : (pyFormat 2 ((toNatValue ((t.drop 4).take 2) + 1 : Nat) : Int)).length = 2 :=
      pyFormat_length _ 2 (by norm_num) (by norm_num; omega)
    rw [(mk_canonical _ _ e off hlen4 hlen2).1]
    simp only [Except.bind]
    rw [prev_false_canonical (toNatValue (t.take 4))
      (toNatValue ((t.drop 4).take 2) + 1) e off (by omega) (by omega)]
    have hif : ¬(((toNatValue ((t.drop 4).take 2) + 1 : Nat) : Int) - 1 < 1) := by
      push_cast; omega
    rw [if_neg hif, if_neg hif]
    have harith : ((toNatValue ((t.drop 4).take 2) + 1 : Nat) : Int) - 1 =
        ((toNatValue ((t.drop 4).take 2) : Nat) : Int) := by push_cast; ring
    rw [harith, hF4, hF2, mk_length_six _ e off (by simp [hl4, hl2])]
    rw [htake6]

lemma mk_ok_fields (s : Str) (e : Option Int) (off : Int) (d : SingleContractDate)
    (h : mkSingleContractDate s e off = .ok d) :
    d.date_str.length = 8 ∧ d.expiry_date = e ∧ d.approx_expiry_offset = off := by
  refine ⟨date_str_length_eight s e off d h, ?_, ?_⟩ <;>
  · unfold mkSingleContractDate at h
    cases hn : normalize_date_str s with
    | error msg => rw [hn] at h; exact absurd h (by simp [Except.map])
    | ok ns =>
      rw [hn] at h
      simp only [Except.map, Except.ok.injEq] at h
      rw [← h]

/-! ## Price-dictionary lemmas -/

lemma mem_keys_dictSetItem (d : DictFutureContractPrices) (k : Str) (v : PriceDF) :
    k ∈ (dictSetItem d k v).keys := by
  unfold dictSetItem
  simp only [DictFutureContractPrices.keys]
  by_cases hk : k ∈ List.map Prod.fst d.entries
  · rw [if_pos hk]
    obtain ⟨p, hp, hpk⟩ := List.mem_map.mp hk
    dsimp only
    rw [List.map_map]
    exact List.mem_map.mpr ⟨p, hp, by simp [Function.comp, hpk]⟩
  · rw [if_neg hk]
    dsimp only
    rw [List.map_append]
    refine List.mem_append.mpr (Or.inr ?_)
    show k ∈ [k]
    exact List.mem_singleton.mpr rfl

lemma sorted_of_cache_none (d : DictFutureContractPrices) (h : d.cache = none) :
    (sorted_contract_date_str d).1 = List.insertionSort (· ≤ ·) d.keys ∧
    (sorted_contract_date_str d).2 =
      { d with cache := some (List.insertionSort (· ≤ ·) d.keys) } := by
  unfold sorted_contract_date_str
  rw [h]
  exact ⟨rfl, rfl⟩

lemma sortedKeys_mem (d : DictFutureContractPrices)
    (hcache : d.cacheOk) :
    ∀ k ∈ (sorted_contract_date_str d).1, k ∈ d.keys := by
  rcases hcache with h | h
  · rw [(sorted_of_cache_none d h).1]
    exact fun k hk => (List.perm_insertionSort _ _).subset hk
  · simp only [sorted_contract_date_str, h]
    exact fun k hk => (List.perm_insertionSort _ _).subset hk

lemma lookup_some_of_mem_keys (d : DictFutureContractPrices) (k : Str)
    (h : k ∈ d.keys) : ∃ df, d.lookup k = some df := by
  unfold DictFutureContractPrices.lookup
  obtain ⟨p, hp, hpk⟩ := List.mem_map.mp h
  have hfind : (d.entries.find? (fun p => p.1 == k)).isSome = true := by
    rw [List.find?_isSome]
    exact ⟨p, hp, by simp [hpk]⟩
  obtain ⟨q, hq⟩ := Option.isSome_iff_exists.mp hfind
  exact ⟨q.2, by rw [hq]; rfl⟩

lemma collectSeries_ok (d : DictFutureContractPrices) (ptype : Str) :
    ∀ ks : List Str, (∀ k ∈ ks, k ∈ d.keys) →
    ∃ series, collectSeries d ptype ks = .ok series := by
  intro ks
  induction ks with
  | nil => exact fun _ => ⟨[], rfl⟩
  | cons k rest ih =>
    intro hmem
    obtain ⟨df, hdf⟩ := lookup_some_of_mem_keys d k (hmem k (by simp))
    obtain ⟨series, hs⟩ := ih (fun k' hk' => hmem k' (by simp [hk']))
    by_cases hcol : ptype ∈ df.cols
    · refine ⟨(k, df.colSeries ptype) :: series, ?_⟩
      simp only [collectSeries]
      rw [hdf]
      dsimp only
      rw [if_pos hcol, hs]
      rfl
    · refine ⟨series, ?_⟩
      simp only [collectSeries]
      rw [hdf]
      dsimp only
      rw [if_neg hcol]
      exact hs

lemma joint_data_ok (d : DictFutureContractPrices) (ptype : Str)
    (hcache : d.cacheOk) :
    ∃ series, collectSeries d ptype (sorted_contract_date_str d).1 = .ok series ∧
      joint_data d ptype = .ok
        { cols := series.map Prod.fst,
          index := unionDates series,
          rows := (unionDates series).map
            (fun t => (t, series.map (fun s => seriesAt s.2 t))) } := by
  obtain ⟨series, hs⟩ := collectSeries_ok d ptype _ (sortedKeys_mem d hcache)
  refine ⟨series, hs, ?_⟩
  unfold joint_data
  rw [hs]
  rfl

/-! ## Business-day lemmas -/

lemma biz_within_three_fwd (d : Int) (h1 : is_business_day (d + 1) = false)
    (_h2 : is_business_day (d + 2) = false) :
    is_business_day (d + 3) = true := by
  simp only [is_business_day, pyWeekday, decide_eq_false_iff_not, not_lt,
    decide_eq_true_eq] at h1 ⊢
  omega

lemma biz_within_three_bwd (d : Int) (h1 : is_business_day (d - 1) = false)
    (_h2 : is_business_day (d - 2) = false) :
    is_business_day (d - 3) = true := by
  simp only [is_business_day, pyWeekday, decide_eq_false_iff_not, not_lt,
    decide_eq_true_eq] at h1 ⊢
  omega

lemma nextBizDay_is_next (d : Int) :
    d < nextBizDay d ∧ nextBizDay d ≤ d + 3 ∧
    is_business_day (nextBizDay d) = true ∧
    ∀ x : Int, d < x → x < nextBizDay d → is_business_day x = false := by
  unfold nextBizDay
  by_cases h1 : is_business_day (d + 1) = true
  · rw [if_pos h1]
    exact ⟨by omega, by omega, h1, fun x hx1 hx2 => absurd hx2 (by omega)⟩
  · rw [if_neg h1]
    rw [Bool.not_eq_true] at h1
    by_cases h2 : is_business_day (d + 2) = true
    · rw [if_pos h2]
      refine ⟨by omega, by omega, h2, fun x hx1 hx2 => ?_⟩
      have hx : x = d + 1 := by omega
      rw [hx]
      exact h1
    · rw [if_neg h2]
      rw [Bool.not_eq_true] at h2
      refine ⟨by omega, by omega, biz_within_three_fwd d h1 h2,
        fun x hx1 hx2 => ?_⟩
      rcases show x = d + 1 ∨ x = d + 2 from by omega with hx | hx <;> rw [hx]
      · exact h1
      · exact h2

lemma prevBizDay_is_prev (d : Int) :
    prevBizDay d < d ∧ d - 3 ≤ prevBizDay d ∧
    is_business_day (prevBizDay d) = true ∧
    ∀ x : Int, prevBizDay d < x → x < d → is_business_day x = false := by
  unfold prevBizDay
  by_cases h1 : is_business_day (d - 1) = true
  · rw [if_pos h1]
    exact ⟨by omega, by omega, h1, fun x hx1 hx2 => absurd hx2 (by omega)⟩
  · rw [if_neg h1]
    rw [Bool.not_eq_true] at h1
    by_cases h2 : is_business_day (d - 2) = true
    · rw [if_pos h2]
      refine ⟨by omega, by omega, h2, fun x hx1 hx2 => ?_⟩
      have hx : x = d - 1 := by omega
      rw [hx]
      exact h1
    · rw [if_neg h2]
      rw [Bool.not_eq_true] at h2
      refine ⟨by omega, by omega, biz_within_three_bwd d h1 h2,
        fun x hx1 hx2 => ?_⟩
      rcases show x = d - 1 ∨ x = d - 2 from by omega with hx | hx <;> rw [hx]
      · exact h1
      · exact h2

lemma addBizLoop_zero (dir : Int) (fuel : Nat) (d : Int) :
    addBizLoop dir fuel d 0 = d := by
  cases fuel <;> rfl

lemma addBizLoop_eq_iterate_fwd : ∀ (r : Nat) (d : Int) (fuel : Nat),
    3 * r ≤ fuel → addBizLoop 1 fuel d r = nextBizDay^[r] d := by
  intro r
  induction r with
  | zero => intro d fuel _; rw [addBizLoop_zero]; rfl
  | succ r ih =>
    intro d fuel hf
    obtain ⟨f1, rfl⟩ : ∃ f1, fuel = f1 + 1 := ⟨fuel - 1, by omega⟩
    rw [show addBizLoop 1 (f1 + 1) d (r + 1) =
      if is_business_day (d + 1) then addBizLoop 1 f1 (d + 1) r
      else addBizLoop 1 f1 (d + 1) (r + 1) from rfl]
    rw [Function.iterate_succ_apply]
    by_cases h1 : is_business_day (d + 1) = true
    · have hnx : nextBizDay d = d + 1 := by
        unfold nextBizDay
        rw [if_pos h1]
      rw [if_pos h1, hnx]
      exact ih (d + 1) f1 (by omega)
    · rw [if_neg h1]
      rw [Bool.not_eq_true] at h1
      obtain ⟨f2, rfl⟩ : ∃ f2, f1 = f2 + 1 := ⟨f1 - 1, by omega⟩
      rw [show addBizLoop 1 (f2 + 1) (d + 1) (r + 1) =
        if is_business_day (d + 1 + 1) then addBizLoop 1 f2 (d + 1 + 1) r
        else addBizLoop 1 f2 (d + 1 + 1) (r + 1) from rfl]
      rw [show d + 1 + 1 = d + 2 from by ring]
      by_cases h2 : is_business_day (d + 2) = true
      · have hnx : nextBizDay d = d + 2 := by
          unfold nextBizDay
          rw [if_neg (by simp [h1]), if_pos h2]
        rw [if_pos h2, hnx]
        exact ih (d + 2) f2 (by omega)
      · rw [if_neg h2]
        rw [Bool.not_eq_true] at h2
        obtain ⟨f3, rfl⟩ : ∃ f3, f2 = f3 + 1 := ⟨f2 - 1, by omega⟩
        rw [show addBizLoop 1 (f3 + 1) (d + 2) (r + 1) =
          if is_business_day (d + 2 + 1) then addBizLoop 1 f3 (d + 2 + 1) r
          else addBizLoop 1 f3 (d + 2 + 1) (r + 1) from rfl]
        have hnx : nextBizDay d = d + 3 := by
          unfold nextBizDay
          rw [if_neg (by simp [h1]), if_neg (by simp [h2])]
        rw [show d + 2 + 1 = d + 3 from by ring,
          if_pos (biz_within_three_fwd d h1 h2), hnx]
        exact ih (d + 3) f3 (by omega)

lemma addBizLoop_eq_iterate_bwd : ∀ (r : Nat) (d : Int) (fuel : Nat),
    3 * r ≤ fuel → addBizLoop (-1) fuel d r = prevBizDay^[r] d := by
  intro r
  induction r with
  | zero => intro d fuel _; rw [addBizLoop_zero]; rfl
  | succ r ih =>
    intro d fuel hf
    obtain ⟨f1, rfl⟩ : ∃ f1, fuel = f1 + 1 := ⟨fuel - 1, by omega⟩
    rw [show addBizLoop (-1) (f1 + 1) d (r + 1) =
      if is_business_day (d + -1) then addBizLoop (-1) f1 (d + -1) r
      else addBizLoop (-1) f1 (d + -1) (r + 1) from rfl]
    rw [show d + -1 = d - 1 from by ring, Function.iterate_succ_apply]
    by_cases h1 : is_business_day (d - 1) = true
    · have hpv : prevBizDay d = d - 1 := by
        unfold prevBizDay
        rw [if_pos h1]
      rw [if_pos h1, hpv]
      exact ih (d - 1) f1 (by omega)
    · rw [if_neg h1]
      rw [Bool.not_eq_true] at h1
      obtain ⟨f2, rfl⟩ : ∃ f2, f1 = f2 + 1 := ⟨f1 - 1, by omega⟩
      rw [show addBizLoop (-1) (f2 + 1) (d - 1) (r + 1) =
        if is_business_day (d - 1 + -1) then addBizLoop (-1) f2 (d - 1 + -1) r
        else addBizLoop (-1) f2 (d - 1 + -1) (r + 1) from rfl]
      rw [show d - 1 + -1 = d - 2 from by ring]
      by_cases h2 : is_business_day (d - 2) = true
      · have hpv : prevBizDay d = d - 2 := by
          unfold prevBizDay
          rw [if_neg (by simp [h1]), if_pos h2]
        rw [if_pos h2, hpv]
        exact ih (d - 2) f2 (by omega)
      · rw [if_neg h2]
        rw [Bool.not_eq_true] at h2
        obtain ⟨f3, rfl⟩ : ∃ f3, f2 = f3 + 1 := ⟨f2 - 1, by omega⟩
        rw [show addBizLoop (-1) (f3 + 1) (d - 2) (r + 1) =
          if is_business_day (d - 2 + -1) then addBizLoop (-1) f3 (d - 2 + -1) r
          else addBizLoop (-1) f3 (d - 2 + -1) (r + 1) from rfl]
        have hpv : prevBizDay d = d - 3 := by
          unfold prevBizDay
          rw [if_neg (by simp [h1]), if_neg (by simp [h2])]
        rw [show d - 2 + -1 = d - 3 from by ring,
          if_pos (biz_within_three_bwd d h1 h2), hpv]
        exact ih (d - 3) f3 (by omega)

/-! ## Claim theorems -/

/-- Claim C1: the claim states that `ContractDate.create_empty()` succeeds and
yields a contract wrapping `SingleContractDate("")` with `is_empty()` true.
The code instead raises: `create_empty` calls `cls("")`, and
`_normalize_date_str` rejects the empty string because its length is neither 6
nor 8, so the sentinel constructor can never return. This theorem evaluates
the embedded code at that input. -/
theorem C1_create_empty_raises :
    ContractDate.create_empty =
      Except.error "Invalid date string format. Expected YYYYMM or YYYYMMDD" ∧
    mkSingleContractDate [] none 0 =
      Except.error "Invalid date string format. Expected YYYYMM or YYYYMMDD" :=
  ⟨rfl, rfl⟩

/-- Claim C2, counterexample: for the empty-list input the constructor
succeeds, and `is_single_contract` and `is_spread_contract` are both false, so
"exactly one holds, including for a list input of length zero" fails. -/
theorem C2_counterexample_empty_list :
    (mkContractDate (.list []) none 0).map
      (fun cd => (cd.is_single_contract, cd.is_spread_contract)) =
      .ok (false, false) := by
  decide

/-- Claim C2, amended: for every input accepted by the `ContractDate`
constructor, at most one of `is_single_contract` / `is_spread_contract` holds,
and exactly one holds if and only if the input is not the empty list. -/
theorem C2_single_xor_spread (inp : ContractDateInput) (e : Option Int)
    (off : Int) (cd : ContractDate) (h : mkContractDate inp e off = .ok cd) :
    ¬(cd.is_single_contract = true ∧ cd.is_spread_contract = true) ∧
    ((cd.is_single_contract).xor cd.is_spread_contract = true ↔
      inp ≠ .list []) := by
  have hds : parse_input inp e off = .ok cd.contract_dates := by
    unfold mkContractDate at h
    cases hp : parse_input inp e off with
    | error msg => rw [hp] at h; exact absurd h (by simp [Except.map])
    | ok ds =>
      rw [hp] at h
      simp only [Except.map, Except.ok.injEq] at h
      rw [← h]
  constructor
  · rintro ⟨h1, h2⟩
    simp [ContractDate.is_single_contract] at h1
    simp [ContractDate.is_spread_contract] at h2
    omega
  · have hlen : cd.contract_dates.length = 0 ↔ inp = .list [] := by
      cases inp with
      | str s =>
        simp only [parse_input] at hds
        cases hmk : mkSingleContractDate s e off with
        | error msg => rw [hmk] at hds; exact absurd hds (by simp [Except.map])
        | ok d =>
          rw [hmk] at hds
          simp only [Except.map, Except.ok.injEq] at hds
          simp [← hds]
      | scd d =>
        simp only [parse_input, Except.ok.injEq] at hds
        simp [← hds]
      | list items =>
        simp only [parse_input] at hds
        have := parseItemList_length e off items cd.contract_dates hds
        simp [this, List.length_eq_zero]
      | foreign tag => simp [parse_input] at hds
    simp only [ContractDate.is_single_contract, ContractDate.is_spread_contract,
      ne_eq, ← hlen]
    rcases Nat.lt_or_ge cd.contract_dates.length 2 with h2 | h2
    · interval_cases h : cd.contract_dates.length <;> simp
    · have h1 : (cd.contract_dates.length == 1) = false := by
        simp only [beq_eq_false_iff_ne, ne_eq]
        omega
      have h3 : decide (1 < cd.contract_dates.length) = true := by
        simp only [decide_eq_true_eq]
        omega
      simp only [h1, h3, Bool.false_xor]
      constructor
      · intro _ hcon; omega
      · intro _; trivial

/-- Claim C2 witness: the amended statement applied to the single-string
input `"202403"`. -/
theorem C2_single_xor_spread_witness :
    ((⟨[⟨chars "20240300", none, 0⟩], none, 0⟩ :
        ContractDate).is_single_contract).xor
      (⟨[⟨chars "20240300", none, 0⟩], none, 0⟩ :
        ContractDate).is_spread_contract = true :=
  (C2_single_xor_spread (.str (chars "202403")) none 0 _ (by decide)).2.mpr
    (by decide)

/-- Claim C3, counterexample: the 8-character input `"20240300"` is stored
unchanged, ends in "00", and is therefore classified monthly even though the
original input string had length 8 — refuting "determined by whether the
original input string had length 6, not merely by whether the stored
normalized string ends in 00". -/
theorem C3_counterexample_eight_char_monthly :
    (chars "20240300").length = 8 ∧
    (mkSingleContractDate (chars "20240300") none 0).map
      (fun d => (d.is_monthly, d.is_daily)) = .ok (true, false) := by
  decide

/-- Claim C3, amended: `is_monthly`/`is_daily` are mutually exclusive and
determined solely by whether the stored normalized string ends in "00"; for
every 8-character digit string with a nonzero day component (which every
valid calendar date has), the contract is daily and `day` is the parsed day. -/
theorem C3_eight_char_daily (s : Str) (e : Option Int) (off : Int)
    (d : SingleContractDate) (hlen : s.length = 8)
    (hdig : ∀ c ∈ s, isDigitCh c = true) (hday : 0 < toNatValue (s.drop 6))
    (h : mkSingleContractDate s e off = .ok d) :
    d.is_daily = true ∧ d.is_monthly = false ∧
    d.day = .ok (some ((toNatValue (s.drop 6) : Nat) : Int)) ∧
    (∀ d' : SingleContractDate, d'.is_daily = !d'.is_monthly) := by
  have hd : d = ⟨s, e, off⟩ := by
    unfold mkSingleContractDate normalize_date_str at h
    rw [if_neg (by omega), if_pos hlen] at h
    simp only [Except.map, Except.ok.injEq] at h
    exact h.symm
  subst hd
  have hdrop_len : (s.drop 6).length = 2 := by simp [List.length_drop, hlen]
  have hne00 : s.drop 6 ≠ ['0', '0'] := by
    intro hcon
    rw [hcon] at hday
    exact absurd hday (by decide)
  have hmon : SingleContractDate.is_monthly ⟨s, e, off⟩ = false := by
    simp only [SingleContractDate.is_monthly, endsWith00, hlen]
    show (s.drop 6 == ['0', '0']) = false
    simpa [beq_iff_eq] using hne00
  refine ⟨by simp [SingleContractDate.is_daily, hmon], hmon, ?_, ?_⟩
  · have hdrop_ne : s.drop 6 ≠ [] := by
      intro hcon; rw [hcon] at hdrop_len; simp at hdrop_len
    have hdrop_dig : ∀ c ∈ s.drop 6, isDigitCh c = true :=
      fun c hc => hdig c (List.mem_of_mem_drop hc)
    have htake : (s.drop 6).take 2 = s.drop 6 := by
      apply List.take_of_length_le
      omega
    simp only [SingleContractDate.day, hmon, Bool.false_eq_true, if_neg]
    rw [htake, parseInt_of_digits _ hdrop_ne hdrop_dig]
    rfl
  · intro d'
    simp [SingleContractDate.is_daily]

/-- Claim C3 witness: the amended statement applied to `"20240315"`. -/
theorem C3_eight_char_daily_witness :
    (⟨chars "20240315", none, 0⟩ : SingleContractDate).is_daily = true ∧
    (⟨chars "20240315", none, 0⟩ : SingleContractDate).day = .ok (some 15) := by
  have h := C3_eight_char_daily (chars "20240315") none 0 ⟨chars "20240315", none, 0⟩
    (by decide) (by decide) (by decide) (by decide)
  exact ⟨h.1, by rw [h.2.2.1]; decide⟩

/-- Claim C4, counterexample: the constructor accepts the non-numeric
6-character string `"abcdef"` (appending "00") and the calendar-invalid
8-character string `"20241399"` unchanged, whereas the claim demands a
`ParseError` for non-numeric characters and invalid calendar dates. -/
theorem C4_counterexample_no_content_validation :
    mkSingleContractDate (chars "abcdef") none 0 =
      .ok ⟨chars "abcdef00", none, 0⟩ ∧
    mkSingleContractDate (chars "20241399") none 0 =
      .ok ⟨chars "20241399", none, 0⟩ := by
  decide

/-- Claim C4, amended: `SingleContractDate` construction fails (with a
`ValueError`, which the spec calls `ParseError`) exactly on strings whose
length is neither 6 nor 8, regardless of content; a 6-character string gets
"00" appended and an 8-character string is stored unchanged. -/
theorem C4_length_only_validation (s : Str) (e : Option Int) (off : Int) :
    (s.length = 6 → mkSingleContractDate s e off = .ok ⟨s ++ ['0', '0'], e, off⟩) ∧
    (s.length = 8 → mkSingleContractDate s e off = .ok ⟨s, e, off⟩) ∧
    (s.length ≠ 6 → s.length ≠ 8 → mkSingleContractDate s e off =
      .error "Invalid date string format. Expected YYYYMM or YYYYMMDD") := by
  refine ⟨fun h6 => ?_, fun h8 => ?_, fun h6 h8 => ?_⟩ <;>
    unfold mkSingleContractDate normalize_date_str
  · rw [if_pos h6]; rfl
  · rw [if_neg (by omega), if_pos h8]; rfl
  · rw [if_neg h6, if_neg h8]; rfl

/-- Claim C4 witness: the amended statement applied to `"202403"`,
`"20240315"` and `"2024"`. -/
theorem C4_length_only_validation_witness :
    mkSingleContractDate (chars "202403") none 0 =
      .ok ⟨chars "202403" ++ ['0', '0'], none, 0⟩ ∧
    mkSingleContractDate (chars "20240315") none 0 =
      .ok ⟨chars "20240315", none, 0⟩ ∧
    mkSingleContractDate (chars "2024") none 0 =
      .error "Invalid date string format. Expected YYYYMM or YYYYMMDD" :=
  ⟨(C4_length_only_validation (chars "202403") none 0).1 (by decide),
   (C4_length_only_validation (chars "20240315") none 0).2.1 (by decide),
   (C4_length_only_validation (chars "2024") none 0).2.2 (by decide) (by decide)⟩

/-- Claim C5, counterexample: extending a (valid, empty) list with an element
that is not a `FuturesContract` completes normally and keeps the element —
`extend` is the inherited, unvalidated `list.extend` — even though
`validate` would reject the resulting contents. The claim's assertion that
extension fails is false. -/
theorem C5_counterexample_extend_unvalidated :
    list_extend [] [PyListItem.foreign 0] = [PyListItem.foreign 0] ∧
    validateContracts [PyListItem.foreign 0] =
      .error "All items must be FuturesContract objects" := by
  decide

/-- Claim C5, amended: construction of `ListOfFutureContracts` succeeds and
preserves element order exactly when every supplied element is a
`FuturesContract`, failing with a `ValueError` otherwise; extension is the
inherited `list.extend`, which appends without validating. -/
theorem C5_construction_validates_extend_does_not
    (contracts : List PyListItem) :
    (mkListOfFutureContracts (some contracts) = .ok contracts ↔
      ∀ i ∈ contracts, i.isContract = true) ∧
    ((∃ i ∈ contracts, i.isContract = false) →
      mkListOfFutureContracts (some contracts) =
        .error "All items must be FuturesContract objects") ∧
    (∀ l new : List PyListItem, list_extend l new = l ++ new) := by
  refine ⟨?_, ?_, fun l new => rfl⟩
  · simp only [mkListOfFutureContracts, validateContracts]
    by_cases hall : contracts.all PyListItem.isContract
    · rw [if_pos hall]
      simp only [Except.map]
      rw [List.all_eq_true] at hall
      exact ⟨fun _ => hall, fun _ => by trivial⟩
    · rw [if_neg hall]
      simp only [Except.map]
      rw [List.all_eq_true] at hall
      push_neg at hall
      constructor
      · intro hcon; simp [Except.map] at hcon
      · intro hcon
        obtain ⟨i, hi, hval⟩ := hall
        exact absurd (hcon i hi) (by simp [hval])
  · intro ⟨i, hi, hval⟩
    simp only [mkListOfFutureContracts, validateContracts]
    rw [if_neg ?_]
    · rfl
    · rw [List.all_eq_true]
      push_neg
      exact ⟨i, hi, by simp [hval]⟩

/-- Claim C6, counterexample: after the cached sorted-key list has been
created, a plain mapping assignment (`d["A"] = df`, the inherited
`dict.__setitem__`) does not invalidate it, so `sorted_contract_date_str()`
returns the stale list `["B"]` even though the mapping's keys now sort to
`["A", "B"]`. The claim's "and via plain mapping assignment" is false. -/
theorem C6_counterexample_plain_assignment :
    (sorted_contract_date_str (dictSetItem (sorted_contract_date_str
        (add_contract_prices ⟨[], none⟩ (chars "B") ⟨[], []⟩)).2
      (chars "A") ⟨[], []⟩)).1 = [chars "B"] ∧
    List.insertionSort (· ≤ ·) ((dictSetItem (sorted_contract_date_str
        (add_contract_prices ⟨[], none⟩ (chars "B") ⟨[], []⟩)).2
      (chars "A") ⟨[], []⟩).keys) = [chars "A", chars "B"] := by
  refine ⟨?_, ?_⟩ <;> decide

/-- Claim C6, amended: adding a contract through `add_contract_prices`
deletes the cached sorted-key attribute, so the next
`sorted_contract_date_str()` returns the ascending sort of exactly the
mapping's current keys, including the newly added one; plain mapping
assignment, however, leaves any existing cache in place and can return a
stale list. -/
theorem C6_add_contract_prices_invalidates (d : DictFutureContractPrices)
    (k : Str) (df : PriceDF) :
    (add_contract_prices d k df).cache = none ∧
    List.Sorted (· ≤ ·)
      ((sorted_contract_date_str (add_contract_prices d k df)).1) ∧
    ((sorted_contract_date_str (add_contract_prices d k df)).1).Perm
      ((add_contract_prices d k df).keys) ∧
    k ∈ (add_contract_prices d k df).keys := by
  have hc : (add_contract_prices d k df).cache = none := rfl
  obtain ⟨h1, _⟩ := sorted_of_cache_none _ hc
  rw [h1]
  exact ⟨hc, List.sorted_insertionSort _ _, List.perm_insertionSort _ _,
    mem_keys_dictSetItem d k (ensureExpectedColumns df)⟩

/-- Claim C7, counterexample: with one contract `"A"` holding a final price
at date 1 and the request `["A", "Z"]` (where `"Z"` is not a key at all), the
code silently drops `"Z"` and returns the date-1 row — a date at which the
requested contract `"Z"` has no value — rather than restricting to dates
where every requested contract is non-null or raising. -/
theorem C7_counterexample_missing_contract_dropped :
    matched_prices
      ⟨[(chars "A", ⟨[FINAL_PRICE], [(1, [(FINAL_PRICE, some 100)])]⟩)], none⟩
      (some [chars "A", chars "Z"]) FINAL_PRICE =
      .ok ⟨[chars "A"], [1], [(1, [some 100])]⟩ ∧
    chars "Z" ∉
      (⟨[(chars "A", ⟨[FINAL_PRICE], [(1, [(FINAL_PRICE, some 100)])]⟩)], none⟩ :
        DictFutureContractPrices).keys := by
  refine ⟨?_, ?_⟩ <;> decide

/-- Claim C7, amended: for every price dictionary with a consistent cache,
`matched_prices(contracts_to_match, price_type)` works on the requested
contracts that actually appear among the joint-data columns (requested
contracts without data are silently dropped): it raises when no requested
contract appears there, or when no date has non-null values for all of the
appearing requested contracts; otherwise it returns exactly those columns
restricted to exactly those dates (inner-join semantics). -/
theorem C7_matched_prices_inner_join (d : DictFutureContractPrices)
    (req : List Str) (ptype : Str) (hcache : d.cacheOk) :
    ∃ jd, joint_data d ptype = .ok jd ∧
      (req.filter (· ∈ jd.cols) = [] →
        matched_prices d (some req) ptype =
          .error "No matching contracts found in price data") ∧
      (req.filter (· ∈ jd.cols) ≠ [] →
        jd.index.filter (fun t => (req.filter (· ∈ jd.cols)).all
          (fun k => (jd.cell k t).isSome)) = [] →
        matched_prices d (some req) ptype =
          .error "No overlapping price data found for specified contracts") ∧
      (req.filter (· ∈ jd.cols) ≠ [] →
        jd.index.filter (fun t => (req.filter (· ∈ jd.cols)).all
          (fun k => (jd.cell k t).isSome)) ≠ [] →
        matched_prices d (some req) ptype =
          .ok { cols := req.filter (· ∈ jd.cols),
                index := jd.index.filter (fun t => (req.filter (· ∈ jd.cols)).all
                  (fun k => (jd.cell k t).isSome)),
                rows := (jd.index.filter (fun t => (req.filter (· ∈ jd.cols)).all
                  (fun k => (jd.cell k t).isSome))).map
                  (fun t => (t, (req.filter (· ∈ jd.cols)).map
                    (fun k => jd.cell k t))) }) ∧
      (∀ t : Int, t ∈ jd.index.filter (fun t => (req.filter (· ∈ jd.cols)).all
          (fun k => (jd.cell k t).isSome)) ↔
        t ∈ jd.index ∧ ∀ k ∈ req.filter (· ∈ jd.cols),
          (jd.cell k t).isSome = true) := by
  obtain ⟨series, hseries, hjd⟩ := joint_data_ok d ptype hcache
  set jd : JointDF :=
    { cols := series.map Prod.fst,
      index := unionDates series,
      rows := (unionDates series).map
        (fun t => (t, series.map (fun s => seriesAt s.2 t))) } with hjddef
  have hrows : jd.rows = jd.index.map
      (fun t => (t, series.map (fun s => seriesAt s.2 t))) := rfl
  have hfil : jd.rows.filter (fun r => (req.filter (fun k => k ∈ jd.cols)).all
      (fun k => (jd.cell k r.1).isSome)) =
      (jd.index.filter (fun t => (req.filter (fun k => k ∈ jd.cols)).all
        (fun k => (jd.cell k t).isSome))).map
        (fun t => (t, series.map (fun s => seriesAt s.2 t))) := by
    rw [hrows, List.filter_map]
    rfl
  have hmapfst : ∀ l : List Int,
      (l.map (fun t => (t, series.map (fun s => seriesAt s.2 t)))).map Prod.fst
        = l := by
    intro l
    rw [List.map_map]
    exact List.map_id'' (fun x => rfl) l
  refine ⟨jd, hjd, ?_, ?_, ?_, ?_⟩
  · intro hav
    unfold matched_prices
    rw [hjd]
    dsimp only [Except.bind]
    rw [if_pos (by rw [List.isEmpty_iff]; exact hav)]
  · intro hav hempty
    unfold matched_prices
    rw [hjd]
    dsimp only [Except.bind]
    rw [if_neg (fun h => hav (List.isEmpty_iff.mp h)),
      if_pos (by rw [hfil, List.isEmpty_iff, List.map_eq_nil_iff]; exact hempty)]
  · intro hav hne
    unfold matched_prices
    rw [hjd]
    dsimp only [Except.bind]
    rw [if_neg (fun h => hav (List.isEmpty_iff.mp h)),
      if_neg (by rw [hfil, List.isEmpty_iff, List.map_eq_nil_iff]; exact hne),
      hfil, hmapfst, List.map_map]
    rfl
  · intro t
    rw [List.mem_filter, List.all_eq_true]

/-- Claim C7 witness: the amended statement applied to a dictionary with one
contract `"A"` whose final price exists at date 1, requesting `["A"]`. -/
theorem C7_matched_prices_inner_join_witness :
    matched_prices
      ⟨[(chars "A", ⟨[FINAL_PRICE], [(1, [(FINAL_PRICE, some 100)])]⟩)], none⟩
      (some [chars "A"]) FINAL_PRICE =
      .ok ⟨[chars "A"], [1], [(1, [some 100])]⟩ := by
  obtain ⟨jd, hjd, _, _, hok, _⟩ := C7_matched_prices_inner_join
    ⟨[(chars "A", ⟨[FINAL_PRICE], [(1, [(FINAL_PRICE, some 100)])]⟩)], none⟩
    [chars "A"] FINAL_PRICE (Or.inl rfl)
  have hjdc : jd = ⟨[chars "A"], [1], [(1, [some 100])]⟩ := by
    have h2 : joint_data
        ⟨[(chars "A", ⟨[FINAL_PRICE], [(1, [(FINAL_PRICE, some 100)])]⟩)], none⟩
        FINAL_PRICE = .ok ⟨[chars "A"], [1], [(1, [some 100])]⟩ := by decide
    rw [h2] at hjd
    exact (Except.ok.inj hjd).symm
  subst hjdc
  rw [hok (by decide) (by decide)]
  decide

/-- Claim C8: `add_business_days(d, n)` steps one calendar day at a time in
the sign of `n`, skipping Saturdays and Sundays, until `|n|` business days
have been traversed: it equals the `|n|`-fold iterate of the
next/previous-business-day step, where that step lands on the nearest
business day strictly beyond the current date and every day skipped over is
a weekend day; `n = 0` returns the date unchanged; from a Friday one step
forward reaches the following Monday (three calendar days later), and from a
Monday one step backward reaches the previous Friday. -/
theorem C8_add_business_days_steps (d n : Int) :
    (add_business_days d 0 = d) ∧
    (0 ≤ n → add_business_days d n = nextBizDay^[n.natAbs] d) ∧
    (n < 0 → add_business_days d n = prevBizDay^[n.natAbs] d) ∧
    (d < nextBizDay d ∧ is_business_day (nextBizDay d) = true ∧
      ∀ x : Int, d < x → x < nextBizDay d → is_business_day x = false) ∧
    (prevBizDay d < d ∧ is_business_day (prevBizDay d) = true ∧
      ∀ x : Int, prevBizDay d < x → x < d → is_business_day x = false) ∧
    (pyWeekday d = 4 → add_business_days d 1 = d + 3 ∧ pyWeekday (d + 3) = 0) ∧
    (pyWeekday d = 0 → add_business_days d (-1) = d - 3 ∧ pyWeekday (d - 3) = 4) := by
  obtain ⟨hn1, _, hn3, hn4⟩ := nextBizDay_is_next d
  obtain ⟨hp1, _, hp3, hp4⟩ := prevBizDay_is_prev d
  refine ⟨rfl, fun hn => ?_, fun hn => ?_, ⟨hn1, hn3, hn4⟩, ⟨hp1, hp3, hp4⟩,
    fun hfri => ?_, fun hmon => ?_⟩
  · unfold add_business_days
    rw [if_pos hn]
    exact addBizLoop_eq_iterate_fwd n.natAbs d (3 * n.natAbs + 1) (by omega)
  · unfold add_business_days
    rw [if_neg (by omega)]
    exact addBizLoop_eq_iterate_bwd n.natAbs d (3 * n.natAbs + 1) (by omega)
  · have hsat : is_business_day (d + 1) = false := by
      simp only [is_business_day, pyWeekday, decide_eq_false_iff_not, not_lt]
      simp only [pyWeekday] at hfri
      omega
    have hsun : is_business_day (d + 2) = false := by
      simp only [is_business_day, pyWeekday, decide_eq_false_iff_not, not_lt]
      simp only [pyWeekday] at hfri
      omega
    have hstep : nextBizDay d = d + 3 := by
      unfold nextBizDay
      rw [if_neg (by simp [hsat]), if_neg (by simp [hsun])]
    have h1 : add_business_days d 1 = nextBizDay^[(1 : Int).natAbs] d := by
      unfold add_business_days
      rw [if_pos (by norm_num)]
      exact addBizLoop_eq_iterate_fwd _ d _ (by norm_num)
    refine ⟨by rw [h1]; simp [hstep], ?_⟩
    simp only [pyWeekday] at hfri ⊢
    omega
  · have hsun : is_business_day (d - 1) = false := by
      simp only [is_business_day, pyWeekday, decide_eq_false_iff_not, not_lt]
      simp only [pyWeekday] at hmon
      omega
    have hsat : is_business_day (d - 2) = false := by
      simp only [is_business_day, pyWeekday, decide_eq_false_iff_not, not_lt]
      simp only [pyWeekday] at hmon
      omega
    have hstep : prevBizDay d = d - 3 := by
      unfold prevBizDay
      rw [if_neg (by simp [hsun]), if_neg (by simp [hsat])]
    have h1 : add_business_days d (-1) = prevBizDay^[(-1 : Int).natAbs] d := by
      unfold add_business_days
      rw [if_neg (by norm_num)]
      exact addBizLoop_eq_iterate_bwd _ d _ (by norm_num)
    refine ⟨by rw [h1]; simp [hstep], ?_⟩
    simp only [pyWeekday] at hmon ⊢
    omega

/-- Claim C8 witness: ordinal 5 is a Friday (0001-01-05); one business day
forward is ordinal 8, the following Monday, and one business day backward
from that Monday is Friday again. -/
theorem C8_add_business_days_steps_witness :
    pyWeekday 5 = 4 ∧ add_business_days 5 1 = 8 ∧ pyWeekday 8 = 0 ∧
    add_business_days 8 (-1) = 5 := by
  have hf := (C8_add_business_days_steps 5 1).2.2.2.2.2.1 (by decide)
  have hm := (C8_add_business_days_steps 8 (-1)).2.2.2.2.2.2 (by decide)
  refine ⟨by decide, ?_, by decide, ?_⟩
  · rw [hf.1]; norm_num
  · rw [hm.1]; norm_num

/-- Claim C9, counterexample: `"202413"` is a 6-character string accepted by
the constructor (stored as `"20241300"`, a monthly contract), but rolling the
month forward and back yields December 2024, not the original month 13, so
the round trip fails on it. -/
theorem C9_counterexample_month_13 :
    ((mkSingleContractDate (chars "202413") none 0).bind
      (fun d => d.next_contract_month false)).bind
      (fun d => d.previous_contract_month false) =
      .ok ⟨chars "20241200", none, 0⟩ ∧
    mkSingleContractDate (chars "202413") none 0 =
      .ok ⟨chars "20241300", none, 0⟩ ∧
    ((mkSingleContractDate (chars "202413") none 0).bind
      (fun d => d.next_contract_month false)).bind
      (fun d => d.previous_contract_month false) ≠
      mkSingleContractDate (chars "202413") none 0 := by
  refine ⟨?_, ?_, ?_⟩ <;> decide

/-- Claim C9, amended: for every monthly `SingleContractDate` built from a
6-digit string `YYYYMM` whose month lies in 1..12 (and, for December, whose
year is at most 9998 so that the next year still formats to four digits),
`next_contract_month()` followed by `previous_contract_month()` returns a
contract equal to the original — equality of the stored normalized strings —
including across the December/January year boundary. -/
theorem C9_next_prev_round_trip (s : Str) (e : Option Int) (off : Int)
    (hlen : s.length = 6) (hdig : ∀ c ∈ s, isDigitCh c = true)
    (hm1 : 1 ≤ toNatValue (s.drop 4)) (hm2 : toNatValue (s.drop 4) ≤ 12)
    (hy : toNatValue (s.drop 4) = 12 → toNatValue (s.take 4) ≤ 9998) :
    ((mkSingleContractDate s e off).bind
      (fun d => d.next_contract_month false)).bind
      (fun d => d.previous_contract_month false) =
    mkSingleContractDate s e off := by
  rw [mk_length_six s e off hlen]
  have h8 : (s ++ ['0', '0']).length = 8 := by simp [hlen]
  have htk6 : (s ++ ['0', '0']).take 6 = s := by
    rw [List.take_append_of_le_length (by omega),
      List.take_of_length_le (by omega)]
  have hdrop : ((s ++ ['0', '0']).drop 4).take 2 = s.drop 4 := by
    rw [List.drop_append_of_le_length (by omega),
      List.take_append_of_le_length (by rw [List.length_drop]; omega),
      List.take_of_length_le (by rw [List.length_drop]; omega)]
  have ht4 : (s ++ ['0', '0']).take 4 = s.take 4 :=
    List.take_append_of_le_length (by omega)
  have hdig6 : ∀ c ∈ (s ++ ['0', '0']).take 6, isDigitCh c = true := by
    rw [htk6]; exact hdig
  have hcore := next_prev_core (s ++ ['0', '0']) e off h8 hdig6
    (by rw [hdrop]; exact hm1) (by rw [hdrop]; exact hm2)
    (by rw [hdrop, ht4]; exact hy)
  rw [htk6] at hcore
  exact hcore

/-- Claim C9 witness: the amended statement applied to `"202403"`. -/
theorem C9_next_prev_round_trip_witness :
    ((mkSingleContractDate (chars "202403") none 0).bind
      (fun d => d.next_contract_month false)).bind
      (fun d => d.previous_contract_month false) =
      mkSingleContractDate (chars "202403") none 0 :=
  C9_next_prev_round_trip (chars "202403") none 0 (by decide) (by decide)
    (by decide) (by decide) (by decide)

/-- Claim C10, counterexample: the monthly contract `"999912"` is accepted,
but `next_contract_month` raises (for either `quarterly_only` flag) instead
of returning a monthly contract: the next year, 10000, formats to five
digits, so the new 7-character date string is rejected by the constructor.
The claim's "always return a monthly contract" is therefore false. -/
theorem C10_counterexample_year_overflow :
    (mkSingleContractDate (chars "999912") none 0).map
      (fun d => d.is_monthly) = .ok true ∧
    (mkSingleContractDate (chars "999912") none 0).bind
      (fun d => d.next_contract_month false) =
      .error "Invalid date string format. Expected YYYYMM or YYYYMMDD" ∧
    (mkSingleContractDate (chars "999912") none 0).bind
      (fun d => d.next_contract_month true) =
      .error "Invalid date string format. Expected YYYYMM or YYYYMMDD" := by
  refine ⟨?_, ?_, ?_⟩ <;> decide

/-- Claim C10, amended: for every `SingleContractDate` (monthly or daily)
whose first six stored characters are digits with month in 1..12 and year at
most 9998, and for every `quarterly_only` flag, `next_contract_month` and
`previous_contract_month` return a monthly contract (`is_monthly` true, `day`
`None`): the day component of a daily contract is silently dropped, so
next-then-previous (default flag) returns the monthly contract of its month —
the stored string becomes the first six characters plus "00", which differs
from the original whenever the day component was nonzero. -/
theorem C10_roll_returns_monthly (s : Str) (e : Option Int) (off : Int)
    (d : SingleContractDate) (b : Bool)
    (hmk : mkSingleContractDate s e off = .ok d)
    (hdig : ∀ c ∈ d.date_str.take 6, isDigitCh c = true)
    (hm1 : 1 ≤ toNatValue ((d.date_str.drop 4).take 2))
    (hm2 : toNatValue ((d.date_str.drop 4).take 2) ≤ 12)
    (hy : toNatValue (d.date_str.take 4) ≤ 9998) :
    (∃ d', d.next_contract_month b = .ok d' ∧ d'.is_monthly = true ∧
      d'.day = .ok none) ∧
    (∃ d', d.previous_contract_month b = .ok d' ∧ d'.is_monthly = true ∧
      d'.day = .ok none) ∧
    ((d.next_contract_month false).bind
      (fun x => x.previous_contract_month false) =
      .ok ⟨d.date_str.take 6 ++ ['0', '0'], e, off⟩) ∧
    (0 < toNatValue (d.date_str.drop 6) →
      d.date_str.take 6 ++ ['0', '0'] ≠ d.date_str) := by
  obtain ⟨hlen8, he, hoff⟩ := mk_ok_fields s e off d hmk
  obtain ⟨ds, de, doff⟩ := d
  simp only at hlen8 he hoff hdig hm1 hm2 hy ⊢
  subst he hoff
  refine ⟨(roll_monthly ds de doff b hlen8 hdig hm1 hm2 hy).1,
    (roll_monthly ds de doff b hlen8 hdig hm1 hm2 hy).2,
    next_prev_core ds de doff hlen8 hdig hm1 hm2 (fun _ => hy), ?_⟩
  intro hday hcon
  have hsplit : ds.take 6 ++ ds.drop 6 = ds := List.take_append_drop 6 ds
  have h2 : ds.take 6 ++ ['0', '0'] = ds.take 6 ++ ds.drop 6 := by
    rw [hcon]; exact hsplit.symm
  have h00 : (['0', '0'] : Str) = ds.drop 6 := by
    exact List.append_cancel_left h2
  rw [← h00] at hday
  exact absurd hday (by decide)

/-- Claim C10 witness: the amended statement applied to the daily contract
`"20240315"`, with the quarterly flag on for the roll and off for the
round trip. -/
theorem C10_roll_returns_monthly_witness :
    (∃ d', (⟨chars "20240315", none, 0⟩ :
      SingleContractDate).next_contract_month true = .ok d' ∧
      d'.is_monthly = true ∧ d'.day = .ok none) ∧
    ((⟨chars "20240315", none, 0⟩ :
      SingleContractDate).next_contract_month false).bind
      (fun x => x.previous_contract_month false) =
      .ok ⟨chars "20240300", none, 0⟩ := by
  have ht := C10_roll_returns_monthly (chars "20240315") none 0
    ⟨chars "20240315", none, 0⟩ true (by decide) (by decide) (by decide)
    (by decide) (by decide)
  have hf := C10_roll_returns_monthly (chars "20240315") none 0
    ⟨chars "20240315", none, 0⟩ false (by decide) (by decide) (by decide)
    (by decide) (by decide)
  refine ⟨ht.1, ?_⟩
  rw [hf.2.2.1]
  decide

/-- Claim C5 witness: the amended statement applied to a one-contract list
and a one-foreign-element list. -/
theorem C5_construction_validates_witness :
    mkListOfFutureContracts (some [PyListItem.contract ⟨chars "ES1/202403"⟩]) =
      .ok [PyListItem.contract ⟨chars "ES1/202403"⟩] ∧
    mkListOfFutureContracts (some [PyListItem.foreign 7]) =
      .error "All items must be FuturesContract objects" :=
  ⟨(C5_construction_validates_extend_does_not _).1.mpr (by decide),
   (C5_construction_validates_extend_does_not _).2.1 ⟨PyListItem.foreign 7,
     by decide, by decide⟩⟩

end Ibiza
